import Mathlib

/-!
# Task service (`main.go`): a shallow embedding

The program is one Go file with three HTTP handlers, `GetAllTasks`,
`CreateTask` and `DeleteTask`, each of which sends one SQL statement to a
shared Postgres handle and turns the outcome into an HTTP response.

The handlers are embedded as pure functions that take the storage state, the
request and the failures the storage layer reports during the request, and
return the response written, the storage state afterwards and the list of
statements that were sent to storage.

Go strings are Lean `String`s; functions that walk a string byte by byte
(`strings.Split`, `strconv.Atoi`) work on its list of characters, with
`len` the length of the UTF-8 encoding.
-/

namespace TaskService

deriving instance DecidableEq for Except

/-! ## `strings` and `strconv` -/

/-- Go's `len(s)` of a string: the number of bytes of its UTF-8 encoding. -/
def byteLen (s : List Char) : Nat := (s.map Char.utf8Size).sum

/-- The function `strings.Split(s, sep)` for a one-byte separator: the pieces of
`s` between the occurrences of `sep`, always at least one piece. -/
def Split (s : List Char) (sep : Char) : List (List Char) :=
  match s with
  | [] => [[]]
  | c :: cs =>
    if c = sep then [] :: Split cs sep
    else
      match Split cs sep with
      | [] => [[c]]
      | p :: ps => (c :: p) :: ps

/-- The two errors of `strconv`: `ErrSyntax` and `ErrRange`. -/
inductive NumError where
  | ErrSyntax
  | ErrRange
  deriving DecidableEq, Repr

/-- Size of Go's `int` in bits (`strconv.IntSize` on a 64-bit platform). -/
def intSize : Nat := 64

/-- Whether the byte is an ASCII decimal digit, `'0' <= c && c <= '9'`. -/
def isDigit (c : Char) : Bool := decide ('0' ≤ c) && decide (c ≤ '9')

/-- The loop of `strconv.ParseUint` for base 10: `n` is the `uint64`
accumulator, `cutoff = maxUint64/10 + 1`, `maxVal = 1<<bitSize - 1`. A byte
that is no decimal digit is a syntax error (a letter is a digit of value at
least 10, which base 10 refuses too); arithmetic is modulo `2^64`. -/
def parseUintLoop (maxVal : Nat) : List Char → Nat → Except NumError Nat
  | [], n => .ok n
  | c :: cs, n =>
    if isDigit c then
      let d := c.toNat - '0'.toNat
      if n ≥ (2 ^ 64 - 1) / 10 + 1 then .error .ErrRange
      else
        let n10 := (n * 10) % 2 ^ 64
        let n1 := (n10 + d) % 2 ^ 64
        if n1 < n10 ∨ n1 > maxVal then .error .ErrRange
        else parseUintLoop maxVal cs n1
    else .error .ErrSyntax

/-- The function `strconv.ParseUint(s, 10, bitSize)` with `bitSize` already
replaced by `IntSize` when it was 0. -/
def ParseUint (s : List Char) (bitSize : Nat) : Except NumError Nat :=
  if s = [] then .error .ErrSyntax
  else parseUintLoop (2 ^ bitSize - 1) s 0

/-- Conversion `int64(un)` of a `uint64`. -/
def toInt64 (un : Nat) : Int :=
  if un % 2 ^ 64 < 2 ^ 63 then (un % 2 ^ 64 : Nat) else (un % 2 ^ 64 : Nat) - 2 ^ 64

/-- Negation `-n` of an `int64`, which wraps at the minimum. -/
def negInt64 (n : Int) : Int :=
  if n = -(2 ^ 63) then n else -n

/-- The function `strconv.ParseInt(s, 10, bitSize)`, `bitSize = 0` meaning
`IntSize`. On a range error of `ParseUint` Go goes on with its `maxVal`,
which the range check below refuses again. -/
def ParseInt (s : List Char) (bitSize : Nat) : Except NumError Int :=
  if s = [] then .error .ErrSyntax
  else
    let neg := s.head? = some '-'
    let s1 := if s.head? = some '+' ∨ s.head? = some '-' then s.tail else s
    let bits := if bitSize = 0 then intSize else bitSize
    match ParseUint s1 bits with
    | .error .ErrSyntax => .error .ErrSyntax
    | .error .ErrRange => .error .ErrRange
    | .ok un =>
      let cutoff := 2 ^ (bits - 1)
      if ¬ neg ∧ un ≥ cutoff then .error .ErrRange
      else if neg ∧ un > cutoff then .error .ErrRange
      else
        let n := toInt64 un
        .ok (if neg then negInt64 n else n)

/-- The digit loop of the fast path of `strconv.Atoi`; with fewer than 19
bytes the accumulator stays below `10^18`, so Go's `int` does not wrap. -/
def atoiLoop : List Char → Int → Except NumError Int
  | [], n => .ok n
  | c :: cs, n =>
    if isDigit c then atoiLoop cs (n * 10 + ((c.toNat - '0'.toNat : Nat) : Int))
    else .error .ErrSyntax

/-- The function `strconv.Atoi(s)` on a platform with 64-bit `int`. -/
def Atoi (s : List Char) : Except NumError Int :=
  let sLen := byteLen s
  if 0 < sLen ∧ sLen < 19 then
    let signed := s.head? = some '-' ∨ s.head? = some '+'
    let s1 := if signed then s.tail else s
    if signed ∧ s1 = [] then .error .ErrSyntax
    else
      match atoiLoop s1 0 with
      | .error e => .error e
      | .ok n => .ok (if s.head? = some '-' then -n else n)
  else ParseInt s 0

/-! ### Integers as the claim describes them -/

/-- Appending one decimal digit to a number. -/
def digitStep (n : Nat) (c : Char) : Nat := n * 10 + (c.toNat - '0'.toNat)

/-- The value of a string of decimal digits. -/
def digitsValue (ds : List Char) : Nat := ds.foldl digitStep 0

/-- A valid base-10 integer in the words of the specification: an optional
sign, then at least one decimal digit and nothing else, and a value within
the range of a 64-bit `int`; `none` for every other string. -/
def base10Int (s : List Char) : Option Int :=
  let neg := s.head? = some '-'
  let ds := if s.head? = some '+' ∨ s.head? = some '-' then s.tail else s
  if ds ≠ [] ∧ ds.all isDigit then
    let v : Int := (digitsValue ds : Nat)
    let r := if neg then -v else v
    if -(2 ^ 63) ≤ r ∧ r < 2 ^ 63 then some r else none
  else none

/-- The last element of `strings.Split(path, "/")` in the words of the
specification: the final `/`-separated segment, the text after the last `/`
(the whole path when it has none). -/
def finalSegment (path : List Char) : List Char :=
  (path.reverse.takeWhile (fun c => c ≠ '/')).reverse

/-! ## `time` -/

/-- A `time.Time` as the date and clock reading it shows in its location,
with the location's offset in seconds east of UTC. -/
structure Time where
  year : Int
  month : Nat
  day : Nat
  hour : Nat
  minute : Nat
  second : Nat
  nsec : Nat
  offset : Int
  deriving DecidableEq, Repr

/-- The zero value of `time.Time`: January 1, year 1, 00:00:00 UTC. -/
def Time.zero : Time := ⟨1, 1, 1, 0, 0, 0, 0, 0⟩

/-- A `*time.Location` that is not nil. -/
structure Location where
  name : String
  offset : Int
  deriving DecidableEq, Repr

/-- The decimal digits of `n`, padded with zeros on the left to `width`. -/
def padZero (width n : Nat) : String :=
  let ds := (toString n).toList
  String.mk (List.replicate (width - ds.length) '0' ++ ds)

/-- The fractional second of the layout `RFC3339Nano`: nine digits with the
trailing zeros removed, and nothing at all when the nanoseconds are zero. -/
def formatNano (nsec : Nat) : String :=
  let ds := ((padZero 9 nsec).toList.reverse.dropWhile (fun c => c = '0')).reverse
  if ds = [] then "" else String.mk ('.' :: ds)

/-- The zone of the layout `RFC3339`: `Z` for offset zero, else a sign and
`hh:mm`. -/
def formatZone (offset : Int) : String :=
  if offset = 0 then "Z"
  else
    let zone := Int.tdiv offset 60
    (if zone < 0 then "-" else "+") ++
      padZero 2 (zone.natAbs / 60) ++ ":" ++ padZero 2 (zone.natAbs % 60)

/-- The method `Time.MarshalJSON`: the time in the layout `RFC3339Nano`, and
an error for a year outside `[0, 9999]` or a zone hour outside `[0, 23]`. -/
def Time.MarshalJSON (t : Time) : Except String String :=
  if t.year < 0 ∨ t.year > 9999 then
    .error "Time.MarshalJSON: year outside of range [0,9999]"
  else if t.offset ≠ 0 ∧ (Int.tdiv t.offset 60).natAbs / 60 ≥ 24 then
    .error "Time.MarshalJSON: timezone hour outside of range [0,23]"
  else
    .ok (padZero 4 t.year.toNat ++ "-" ++ padZero 2 t.month ++ "-" ++ padZero 2 t.day ++ "T" ++
      padZero 2 t.hour ++ ":" ++ padZero 2 t.minute ++ ":" ++ padZero 2 t.second ++
      formatNano t.nsec ++ formatZone t.offset)

/-! ## `encoding/json` -/

/-- A JSON value. A number is kept as the text of its literal, which is what
the decoder hands to `strconv`; a string is kept as its unescaped value. -/
inductive JSON where
  | null
  | bool (b : Bool)
  | num (lit : String)
  | str (s : String)
  | arr (xs : List JSON)
  | obj (kvs : List (String × JSON))

/-- The word `encoding/json` uses for a value in an `UnmarshalTypeError`. -/
def JSON.kind : JSON → String
  | .null => "null"
  | .bool _ => "bool"
  | .num _ => "number"
  | .str _ => "string"
  | .arr _ => "array"
  | .obj _ => "object"

/-- The struct `Task` of `main.go`. -/
structure Task where
  ID : Int
  Title : String
  Description : String
  CreatedAt : Time
  UpdatedAt : Time
  deriving DecidableEq, Repr

/-- The zero value `Task{}`. -/
def Task.zero : Task := ⟨0, "", "", Time.zero, Time.zero⟩

/-- The fields of `Task` by their JSON names. -/
inductive Field where
  | id
  | title
  | description
  | created_at
  | updated_at
  deriving DecidableEq, Repr

/-- The JSON name in the struct tag of a field. -/
def Field.name : Field → String
  | .id => "id"
  | .title => "title"
  | .description => "description"
  | .created_at => "created_at"
  | .updated_at => "updated_at"

/-- The fields of `Task` in declaration order. -/
def Field.all : List Field := [.id, .title, .description, .created_at, .updated_at]

/-- The errors a handler passes to `http.Error` as `err.Error()`. -/
inductive GoError where
  /-- An error of `database/sql` or the driver, with its message. -/
  | storage (msg : String)
  /-- The body is no JSON text (a `*json.SyntaxError`, `io.EOF`, ...). -/
  | jsonSyntax (msg : String)
  /-- A `*json.UnmarshalTypeError` with its `Value` and `Field`. -/
  | unmarshalType (value : String) (field : String)
  /-- An error returned by `Time.UnmarshalJSON`. -/
  | unmarshalTime (msg : String)
  /-- An error returned by `Time.MarshalJSON`. -/
  | marshal (msg : String)
  deriving DecidableEq, Repr

/-- Simple case folding of one character as far as it can reach an ASCII
letter: the lower-case ASCII letters, the long s and the Kelvin sign. -/
def foldRune (c : Char) : Char :=
  if 'a' ≤ c ∧ c ≤ 'z' then Char.ofNat (c.toNat - 32)
  else if c = '\u017f' then 'S'
  else if c = '\u212a' then 'K'
  else c

/-- The folded form of a key, equal for two keys exactly when
`bytes.EqualFold` holds of them (one of them being ASCII). -/
def foldName (key : String) : List Char := key.toList.map foldRune

/-- The field of `Task` a key of a JSON object is decoded into: the field
with exactly that name, else the field whose name equals it under case
folding, else none (the value is skipped). -/
def findField (key : String) : Option Field :=
  match Field.all.find? (fun f => f.name = key) with
  | some f => some f
  | none => Field.all.find? (fun f => foldName f.name = foldName key)

/-- The state of a decode: the struct being filled and `d.savedError`. -/
structure DecodeState where
  task : Task
  saved : Option GoError

/-- The method `d.saveError`: only the first error is kept. -/
def DecodeState.saveError (st : DecodeState) (e : GoError) : DecodeState :=
  match st.saved with
  | none => { st with saved := some e }
  | some _ => st

/-- Decoding one value into one field of `Task`. A `null` leaves the field as
it is. A value of the wrong kind for `int` or `string` saves an
`UnmarshalTypeError` and the decode goes on; an error of
`Time.UnmarshalJSON` ends the decode. `parseTime` is the RFC 3339 parser of
package `time`, applied to the string's text. -/
def decodeValue (parseTime : String → Except String Time) (st : DecodeState)
    (f : Field) (v : JSON) : Except GoError DecodeState :=
  match f, v with
  | _, .null => .ok st
  | .id, .num lit =>
    match ParseInt lit.toList 64 with
    | .ok n => .ok { st with task := { st.task with ID := n } }
    | .error _ => .ok (st.saveError (.unmarshalType ("number " ++ lit) f.name))
  | .id, v => .ok (st.saveError (.unmarshalType v.kind f.name))
  | .title, .str s => .ok { st with task := { st.task with Title := s } }
  | .title, v => .ok (st.saveError (.unmarshalType v.kind f.name))
  | .description, .str s => .ok { st with task := { st.task with Description := s } }
  | .description, v => .ok (st.saveError (.unmarshalType v.kind f.name))
  | .created_at, .str s =>
    match parseTime s with
    | .ok t => .ok { st with task := { st.task with CreatedAt := t } }
    | .error e => .error (.unmarshalTime e)
  | .created_at, _ => .error (.unmarshalTime "Time.UnmarshalJSON: input is not a JSON string")
  | .updated_at, .str s =>
    match parseTime s with
    | .ok t => .ok { st with task := { st.task with UpdatedAt := t } }
    | .error e => .error (.unmarshalTime e)
  | .updated_at, _ => .error (.unmarshalTime "Time.UnmarshalJSON: input is not a JSON string")

/-- Decoding the members of a JSON object into `Task`, in their order; a
key that names no field is skipped, a later member overwrites an earlier
one. -/
def decodeObject (parseTime : String → Except String Time) :
    List (String × JSON) → DecodeState → Except GoError DecodeState
  | [], st => .ok st
  | (key, v) :: kvs, st =>
    match findField key with
    | none => decodeObject parseTime kvs st
    | some f =>
      match decodeValue parseTime st f v with
      | .error e => .error e
      | .ok st1 => decodeObject parseTime kvs st1

/-- The call `json.NewDecoder(r.Body).Decode(&task)` with `task` the zero
`Task`. `body` is the first JSON value of the request body, or the error of
the decoder when the body does not start with one. -/
def decodeTask (parseTime : String → Except String Time) (body : Except String JSON) :
    Except GoError Task :=
  match body with
  | .error msg => .error (.jsonSyntax msg)
  | .ok .null => .ok Task.zero
  | .ok (.obj kvs) =>
    match decodeObject parseTime kvs ⟨Task.zero, none⟩ with
    | .error e => .error e
    | .ok st =>
      match st.saved with
      | some e => .error e
      | none => .ok st.task
  | .ok v => .error (.unmarshalType v.kind "")

/-- The JSON object the encoder writes for a `Task`. -/
def encodeTask (t : Task) : Except String JSON :=
  match t.CreatedAt.MarshalJSON, t.UpdatedAt.MarshalJSON with
  | .ok c, .ok u =>
    .ok (.obj [("id", .num (toString t.ID)), ("title", .str t.Title),
      ("description", .str t.Description), ("created_at", .str c), ("updated_at", .str u)])
  | .error e, _ => .error e
  | _, .error e => .error e

/-- The elements of a slice encoded one after the other. -/
def encodeList : List Task → Except String (List JSON)
  | [] => .ok []
  | t :: ts =>
    match encodeTask t, encodeList ts with
    | .ok v, .ok vs => .ok (v :: vs)
    | .error e, _ => .error e
    | _, .error e => .error e

/-- The JSON value the encoder writes for a `[]Task`: `null` for the nil
slice (`none`), an array for every other slice, the empty one included. -/
def encodeTasks : Option (List Task) → Except String JSON
  | none => .ok .null
  | some ts =>
    match encodeList ts with
    | .ok vs => .ok (.arr vs)
    | .error e => .error e

/-! ## Storage -/

/-- A row of the table `tasks`. -/
structure Row where
  id : Int
  title : String
  description : String
  created_at : Time
  updated_at : Time
  deriving DecidableEq, Repr

/-- Modelled from the spec: the storage engine, which is not part of the
program. The state of the table `tasks(id serial primary key, title,
description, created_at, updated_at)`: its rows in the order a scan yields
them, and the next value of the sequence behind `id`. -/
structure DB where
  rows : List Row
  nextId : Int
  deriving DecidableEq, Repr

/-- Modelled from the spec: the storage engine executing
`INSERT INTO tasks(title, description, created_at, updated_at) VALUES(...)`.
The id is taken from the sequence, which advances in any case; the primary
key refuses an id that a row already has. -/
def DB.insert (db : DB) (title description : String) (created_at updated_at : Time) :
    DB × Option String :=
  if db.rows.any (fun r => r.id = db.nextId) then
    ({ db with nextId := db.nextId + 1 },
      some "pq: duplicate key value violates unique constraint \"tasks_pkey\"")
  else
    ({ rows := db.rows ++ [⟨db.nextId, title, description, created_at, updated_at⟩],
       nextId := db.nextId + 1 }, none)

/-- Modelled from the spec: the storage engine executing
`DELETE FROM tasks WHERE id = $1`: the table without the matching rows, and
the number of rows affected. -/
def DB.delete (db : DB) (id : Int) : DB × Nat :=
  ({ db with rows := db.rows.filter (fun r => r.id ≠ id) },
    (db.rows.filter (fun r => r.id = id)).length)

/-- A statement the program sends to storage. -/
inductive Stmt where
  | select
  | prepareInsert
  | execInsert (title description : String) (created_at updated_at : Time)
  | delete (id : Int)
  deriving DecidableEq, Repr

/-- The failures the storage layer reports during one request, each with the
message of the error: `db.Query`, `rows.Scan` of the row with a given index,
`db.Prepare`, `Exec` and `result.RowsAffected` return an error; `next = some
k` is an error during iteration, after which `rows.Next()` returns false
once `k` rows have been yielded and `rows.Err()` holds the error. -/
structure Faults where
  query : Option String
  next : Option Nat
  scan : Nat → Option String
  prepare : Option String
  exec : Option String
  rowsAffected : Option String

/-- A request during which storage reports no failure. -/
def Faults.none : Faults := ⟨Option.none, Option.none, fun _ => Option.none, Option.none,
  Option.none, Option.none⟩

/-- What the program reads from its environment in `CreateTask`:
`time.LoadLocation` (`none` when it returns an error) and the clock, `Now k
loc` being what the call number `k` of `time.Now()` in the request returns,
shown in `loc`. -/
structure Env where
  LoadLocation : String → Option Location
  Now : Nat → Location → Time

/-! ## HTTP -/

/-- The body of a response. -/
inductive Body where
  /-- Nothing was written. -/
  | empty
  /-- The bytes of a string. -/
  | text (s : String)
  /-- The text `err.Error()` and a newline, as `http.Error` writes them. -/
  | error (e : GoError)
  /-- The JSON text of a value and a newline, as `Encoder.Encode` writes them. -/
  | json (v : JSON)

/-- The response a handler has written: the status, the `Content-Type`
header if the handler set one, and the body. -/
structure Response where
  status : Nat
  contentType : Option String
  body : Body

/-- The outcome of a handler: the response (`none` when the handler
panicked, so that no response was written), the storage state afterwards and
the statements sent to storage, in order. -/
structure Result where
  resp : Option Response
  db : DB
  trace : List Stmt

/-- The call `http.Error(w, msg, code)` with a fixed message. -/
def httpError (msg : String) (code : Nat) : Response :=
  ⟨code, some "text/plain; charset=utf-8", .text (msg ++ "\n")⟩

/-- The call `http.Error(w, err.Error(), code)`. -/
def httpErrorOf (e : GoError) (code : Nat) : Response :=
  ⟨code, some "text/plain; charset=utf-8", .error e⟩

def StatusOK : Nat := 200
def StatusCreated : Nat := 201
def StatusBadRequest : Nat := 400
def StatusNotFound : Nat := 404
def StatusInternalServerError : Nat := 500

/-! ## The handlers of `main.go` -/

/-- The loop `for rows.Next() { ... rows.Scan(&task.ID, &task.Title,
&task.Description) ... tasks = append(tasks, task) }` over the rows the query
yields, `i` counting the rows yielded so far. When `rows.Next()` returns
false the loop ends, whether storage ran out of rows or failed. -/
def scanRows (f : Faults) : List Row → Nat → List Task → Except String (List Task)
  | [], _, tasks => .ok tasks
  | r :: rs, i, tasks =>
    if f.next = some i then .ok tasks
    else
      match f.scan i with
      | some e => .error e
      | Option.none =>
        scanRows f rs (i + 1)
          (tasks ++ [{ Task.zero with ID := r.id, Title := r.title, Description := r.description }])

/-- The handler `GetAllTasks`. -/
def GetAllTasks (f : Faults) (db : DB) : Result :=
  match f.query with
  | some e => ⟨some (httpErrorOf (.storage e) StatusInternalServerError), db, [.select]⟩
  | Option.none =>
    match scanRows f db.rows 0 [] with
    | .error e => ⟨some (httpErrorOf (.storage e) StatusInternalServerError), db, [.select]⟩
    | .ok tasks =>
      match encodeTasks (some tasks) with
      | .error e => ⟨some (httpErrorOf (.marshal e) StatusInternalServerError), db, [.select]⟩
      | .ok v => ⟨some ⟨StatusOK, some "application/json", .json v⟩, db, [.select]⟩

/-- The handler `CreateTask`. When `time.LoadLocation` fails, `jst` is nil
and `time.Now().In(jst)` panics. -/
def CreateTask (parseTime : String → Except String Time) (env : Env) (f : Faults) (db : DB)
    (body : Except String JSON) : Result :=
  match decodeTask parseTime body with
  | .error e => ⟨some (httpErrorOf e StatusBadRequest), db, []⟩
  | .ok task =>
    match env.LoadLocation "Asia/Tokyo" with
    | Option.none => ⟨Option.none, db, []⟩
    | some jst =>
      let now := env.Now 0 jst
      match f.prepare with
      | some e =>
        ⟨some (httpErrorOf (.storage e) StatusInternalServerError), db, [.prepareInsert]⟩
      | Option.none =>
        let stmts := [Stmt.prepareInsert, .execInsert task.Title task.Description now now]
        match f.exec with
        | some e => ⟨some (httpErrorOf (.storage e) StatusInternalServerError), db, stmts⟩
        | Option.none =>
          match db.insert task.Title task.Description now now with
          | (db1, some e) =>
            ⟨some (httpErrorOf (.storage e) StatusInternalServerError), db1, stmts⟩
          | (db1, Option.none) => ⟨some ⟨StatusCreated, Option.none, .empty⟩, db1, stmts⟩

/-- The handler `DeleteTask`, `path` being `r.URL.Path`. Indexing
`parts[len(parts)-1]` panics on an empty slice. -/
def DeleteTask (f : Faults) (db : DB) (path : String) : Result :=
  let parts := Split path.toList '/'
  match parts.getLast? with
  | Option.none => ⟨Option.none, db, []⟩
  | some idStr =>
    if idStr = [] then ⟨some (httpError "id parameter is missing" StatusBadRequest), db, []⟩
    else
      match Atoi idStr with
      | .error _ => ⟨some (httpError "invalid id parameter" StatusBadRequest), db, []⟩
      | .ok id =>
        match f.exec with
        | some e =>
          ⟨some (httpErrorOf (.storage e) StatusInternalServerError), db, [.delete id]⟩
        | Option.none =>
          match f.rowsAffected with
          | some e =>
            ⟨some (httpErrorOf (.storage e) StatusInternalServerError), (db.delete id).1,
              [.delete id]⟩
          | Option.none =>
            if (db.delete id).2 = 0 then
              ⟨some (httpError ("task with id " ++ toString id ++ " not found") StatusNotFound),
                (db.delete id).1, [.delete id]⟩
            else ⟨some ⟨StatusOK, Option.none, .text (toString id)⟩, (db.delete id).1, [.delete id]⟩

/-- The JSON object `GetAllTasks` writes for a row: the id, title and
description of the row, and the zero time for both timestamps. -/
def rowJSON (r : Row) : JSON :=
  .obj [("id", .num (toString r.id)), ("title", .str r.title),
    ("description", .str r.description), ("created_at", .str "0001-01-01T00:00:00Z"),
    ("updated_at", .str "0001-01-01T00:00:00Z")]

/-! ## Payloads as the specification describes them -/

/-- The lower-case form of one character of a member name: an upper-case
ASCII letter becomes its lower-case letter, the long s becomes `s` and the
Kelvin sign becomes `k`; every other character stays. -/
def lowerRune (c : Char) : Char :=
  if 'A' ≤ c ∧ c ≤ 'Z' then Char.ofNat (c.toNat + 32)
  else if c = '\u017f' then 's'
  else if c = '\u212a' then 'k'
  else c

/-- A member name in lower case. -/
def lowerKey (key : String) : List Char := key.toList.map lowerRune

/-- The field of `Task` a member name stands for when case is ignored: the
field whose JSON name is the name in lower case, if there is one. -/
def fieldOfKey (key : String) : Option Field :=
  Field.all.find? (fun f => lowerKey key = f.name.toList)

/-- Whether a JSON value is of the kind of a field of `Task` or is `null`: an
integer literal within the range of `int` for `id`, a string for `title` and
`description`, a string the RFC 3339 parser accepts for the timestamps. -/
def wellTyped (parseTime : String → Except String Time) : Field → JSON → Bool
  | _, .null => true
  | .id, .num lit => (base10Int lit.toList).isSome
  | .title, .str _ => true
  | .description, .str _ => true
  | .created_at, .str s => (parseTime s).toOption.isSome
  | .updated_at, .str s => (parseTime s).toOption.isSome
  | _, _ => false

/-- Whether a member fits a payload with title `t` and description `d`: a
member that stands for `title` is the string `t`, one that stands for
`description` is the string `d`, one that stands for another field is of the
kind of that field or `null`, and a member that stands for no field is
anything. -/
def memberOK (parseTime : String → Except String Time) (t d : String) (kv : String × JSON) :
    Bool :=
  match fieldOfKey kv.1, kv.2 with
  | Option.none, _ => true
  | some .title, .str s => s = t
  | some .title, _ => false
  | some .description, .str s => s = d
  | some .description, _ => false
  | some f, v => wellTyped parseTime f v

/-- A valid create payload with title `t` and description `d`: a JSON
object with a member for `title` and one for `description`, all of whose
members fit, in any order and with any further members. -/
def validPayload (parseTime : String → Except String Time) (kvs : List (String × JSON))
    (t d : String) : Bool :=
  kvs.all (memberOK parseTime t d) &&
    kvs.any (fun kv => fieldOfKey kv.1 = some .title) &&
    kvs.any (fun kv => fieldOfKey kv.1 = some .description)

/-! ## Sample data -/

/-- An environment in which `Asia/Tokyo` loads, nine hours east of UTC, and
the clock shows 05:04:03 on March 9, 2024, one nanosecond later at each
reading. -/
def sampleEnv : Env :=
  ⟨fun name => if name = "Asia/Tokyo" then some ⟨"Asia/Tokyo", 32400⟩ else Option.none,
   fun k loc => ⟨2024, 3, 9, 5, 4, 3, k, loc.offset⟩⟩

/-- A stand-in for the RFC 3339 parser of package `time` that knows one
timestamp. -/
def sampleParseTime (s : String) : Except String Time :=
  if s = "2006-01-02T15:04:05Z" then .ok ⟨2006, 1, 2, 15, 4, 5, 0, 0⟩
  else .error "parsing time: cannot parse"

/-! ## Theorems -/

/-- A decimal digit has a character code between 48 and 57. -/
theorem isDigit_toNat {c : Char} (h : isDigit c = true) : 48 ≤ c.toNat ∧ c.toNat ≤ 57 := by
  simp only [isDigit, Bool.and_eq_true, decide_eq_true_eq] at h
  obtain ⟨h1, h2⟩ := h
  have h1' : ('0' : Char).toNat ≤ c.toNat := h1
  have h2' : c.toNat ≤ ('9' : Char).toNat := h2
  have e0 : ('0' : Char).toNat = 48 := by decide
  have e9 : ('9' : Char).toNat = 57 := by decide
  omega

theorem foldl_digitStep_ge (ds : List Char) (n : Nat) : n ≤ ds.foldl digitStep n := by
  induction ds generalizing n with
  | nil => simp
  | cons c cs ih =>
    simp only [List.foldl_cons]
    have := ih (digitStep n c)
    unfold digitStep at this ⊢
    omega

theorem foldl_digitStep_lt (ds : List Char) (n : Nat) (h : ds.all isDigit = true) :
    ds.foldl digitStep n < (n + 1) * 10 ^ ds.length := by
  induction ds generalizing n with
  | nil => simp
  | cons c cs ih =>
    simp only [List.all_cons, Bool.and_eq_true] at h
    have hd := isDigit_toNat h.1
    have e0 : ('0' : Char).toNat = 48 := by decide
    have h1 := ih (digitStep n c) h.2
    simp only [List.foldl_cons, List.length_cons]
    have h2 : digitStep n c + 1 ≤ (n + 1) * 10 := by
      unfold digitStep
      omega
    calc cs.foldl digitStep (digitStep n c)
        < (digitStep n c + 1) * 10 ^ cs.length := h1
      _ ≤ ((n + 1) * 10) * 10 ^ cs.length := Nat.mul_le_mul_right _ h2
      _ = (n + 1) * 10 ^ (cs.length + 1) := by ring

theorem atoiLoop_eq (ds : List Char) (n : Nat) :
    atoiLoop ds (n : Int) =
      if ds.all isDigit = true then .ok ((ds.foldl digitStep n : Nat) : Int)
      else .error .ErrSyntax := by
  induction ds generalizing n with
  | nil => simp [atoiLoop]
  | cons c cs ih =>
    by_cases hc : isDigit c = true
    · have e : (n : Int) * 10 + ((c.toNat - '0'.toNat : Nat) : Int) = ((digitStep n c : Nat) : Int) := by
        unfold digitStep
        push_cast
        rfl
      simp only [atoiLoop, hc, if_true, e, ih, List.all_cons, Bool.true_and, List.foldl_cons]
    · simp [atoiLoop, hc]

theorem parseUintLoop_toOption (ds : List Char) (n : Nat) (hn : n < 2 ^ 64) :
    (parseUintLoop (2 ^ 64 - 1) ds n).toOption =
      if ds.all isDigit = true ∧ ds.foldl digitStep n < 2 ^ 64
      then some (ds.foldl digitStep n) else none := by
  induction ds generalizing n with
  | nil =>
    simp only [parseUintLoop, Except.toOption, List.all_nil, List.foldl_nil, true_and]
    rw [if_pos hn]
  | cons c cs ih =>
    by_cases hc : isDigit c = true
    · have hd := isDigit_toNat hc
      have e0 : ('0' : Char).toNat = 48 := by decide
      have hge := foldl_digitStep_ge cs (digitStep n c)
      have hstep : digitStep n c = n * 10 + (c.toNat - 48) := by
        unfold digitStep
        rw [e0]
      simp only [parseUintLoop, hc, if_true, List.all_cons, Bool.true_and, List.foldl_cons, e0]
      by_cases hcut : n ≥ (2 ^ 64 - 1) / 10 + 1
      · have hbig : ¬ (cs.all isDigit = true ∧ cs.foldl digitStep (digitStep n c) < 2 ^ 64) := by
          norm_num at hcut
          omega
        rw [if_pos hcut, if_neg hbig]
        rfl
      · have hn10 : n * 10 % 2 ^ 64 = n * 10 := by
          norm_num at hcut
          omega
        rw [if_neg hcut, hn10]
        by_cases hov : n * 10 + (c.toNat - 48) < 2 ^ 64
        · have hn1 : (n * 10 + (c.toNat - 48)) % 2 ^ 64 = n * 10 + (c.toNat - 48) :=
            Nat.mod_eq_of_lt hov
          have hno : ¬ (n * 10 + (c.toNat - 48) < n * 10 ∨ n * 10 + (c.toNat - 48) > 2 ^ 64 - 1) := by
            omega
          rw [hn1, if_neg hno, ← hstep]
          exact ih (digitStep n c) (by omega)
        · have hbig : ¬ (cs.all isDigit = true ∧ cs.foldl digitStep (digitStep n c) < 2 ^ 64) := by
            omega
          have hw : (n * 10 + (c.toNat - 48)) % 2 ^ 64 < n * 10 ∨
              (n * 10 + (c.toNat - 48)) % 2 ^ 64 > 2 ^ 64 - 1 := by
            left
            omega
          rw [if_pos hw, if_neg hbig]
          rfl
    · simp [parseUintLoop, hc, Except.toOption]

theorem byteLen_ge_length (s : List Char) : s.length ≤ byteLen s := by
  induction s with
  | nil => simp [byteLen]
  | cons c cs ih =>
    have := Char.utf8Size_pos c
    simp only [byteLen, List.map_cons, List.sum_cons, List.length_cons] at ih ⊢
    omega

/-- The sign-stripping and range check shared by `ParseInt` and `base10Int`. -/
theorem ParseInt_toOption (s : List Char) (bitSize : Nat) (hb : bitSize = 0 ∨ bitSize = 64) :
    (ParseInt s bitSize).toOption = base10Int s := by
  have hbits : (if bitSize = 0 then intSize else bitSize) = 64 := by
    rcases hb with h | h <;> simp [h, intSize]
  unfold ParseInt base10Int
  by_cases hs : s = []
  · subst hs
    simp [Except.toOption]
  · rw [if_neg hs]
    simp only [hbits]
    generalize hds : (if s.head? = some '+' ∨ s.head? = some '-' then s.tail else s) = ds
    by_cases hnil : ds = []
    · simp [hnil, ParseUint, Except.toOption]
    · have hP := parseUintLoop_toOption ds 0 (by norm_num)
      unfold ParseUint
      rw [if_neg hnil]
      by_cases hall : ds.all isDigit = true
      · by_cases hlt : ds.foldl digitStep 0 < 2 ^ 64
        · rw [if_pos ⟨hall, hlt⟩] at hP
          cases hres : parseUintLoop (2 ^ 64 - 1) ds 0 with
          | error e => (rw [hres] at hP; simp [Except.toOption] at hP)
          | ok un =>
            simp only [hres, Except.toOption, Option.some.injEq] at hP
            subst hP
            have hv : digitsValue ds = ds.foldl digitStep 0 := rfl
            rw [if_pos ⟨hnil, hall⟩, hv]
            simp only [toInt64, negInt64, Nat.mod_eq_of_lt hlt]
            by_cases hneg : s.head? = some '-'
            · simp only [hneg, not_true_eq_false, false_and, if_false, true_and, if_true]
              split_ifs <;> simp only [Except.toOption] <;> first | rfl | omega | (congr 1; omega)
            · simp only [hneg, not_false_eq_true, true_and, false_and, if_false]
              split_ifs <;> simp only [Except.toOption] <;> first | rfl | omega
        · rw [if_neg (fun h => hlt h.2)] at hP
          have hv : digitsValue ds = ds.foldl digitStep 0 := rfl
          rw [if_pos ⟨hnil, hall⟩, hv]
          have hr : ¬ (-(2 ^ 63 : Int) ≤ (if s.head? = some '-' then -((ds.foldl digitStep 0 : Nat) : Int)
              else ((ds.foldl digitStep 0 : Nat) : Int)) ∧
              (if s.head? = some '-' then -((ds.foldl digitStep 0 : Nat) : Int)
              else ((ds.foldl digitStep 0 : Nat) : Int)) < 2 ^ 63) := by
            split_ifs <;> omega
          rw [if_neg hr]
          cases hres : parseUintLoop (2 ^ 64 - 1) ds 0 with
          | error e => cases e <;> rfl
          | ok un => (rw [hres] at hP; simp [Except.toOption] at hP)
      · rw [if_neg (fun h => hall h.1)] at hP
        rw [if_neg (fun h => hall h.2)]
        cases hres : parseUintLoop (2 ^ 64 - 1) ds 0 with
        | error e => cases e <;> rfl
        | ok un => (rw [hres] at hP; simp [Except.toOption] at hP)

/-- The function `Atoi` accepts exactly the strings that are an optional sign followed
by decimal digits with a value in the range of `int`, and returns that value. -/
theorem Atoi_toOption (s : List Char) : (Atoi s).toOption = base10Int s := by
  unfold Atoi
  by_cases hlen : 0 < byteLen s ∧ byteLen s < 19
  · simp only [hlen, and_self, if_true]
    unfold base10Int
    have hsigned : (s.head? = some '-' ∨ s.head? = some '+') ↔
        (s.head? = some '+' ∨ s.head? = some '-') := or_comm
    simp only [hsigned]
    generalize hds : (if s.head? = some '+' ∨ s.head? = some '-' then s.tail else s) = ds
    have hlen_ds : ds.length ≤ 18 := by
      have h1 := byteLen_ge_length s
      have h2 : ds.length ≤ s.length := by
        rw [← hds]
        split_ifs
        · simp
        · exact le_refl _
      omega
    have hne : ¬ (s.head? = some '+' ∨ s.head? = some '-') → ds ≠ [] := by
      intro hno
      rw [← hds, if_neg hno]
      intro h
      rw [h] at hlen
      simp [byteLen] at hlen
    by_cases hnil : ds = []
    · have hsg : s.head? = some '+' ∨ s.head? = some '-' := by
        by_contra hno
        exact hne hno hnil
      simp [hnil, hsg, Except.toOption]
    · have hA := atoiLoop_eq ds 0
      simp only [Nat.cast_zero] at hA
      have hfalse : ¬ ((s.head? = some '+' ∨ s.head? = some '-') ∧ ds = []) := fun h => hnil h.2
      rw [if_neg hfalse, hA]
      by_cases hall : ds.all isDigit = true
      · have hlt := foldl_digitStep_lt ds 0 hall
        have hpow : (0 + 1) * 10 ^ ds.length ≤ 10 ^ 18 := by
          rw [Nat.zero_add, Nat.one_mul]
          exact Nat.pow_le_pow_right (by norm_num) hlen_ds
        have hv : digitsValue ds = ds.foldl digitStep 0 := rfl
        have hbound : ds.foldl digitStep 0 < 10 ^ 18 := lt_of_lt_of_le hlt hpow
        rw [if_pos hall, if_pos ⟨hnil, hall⟩, hv]
        have hr : (-(2 ^ 63 : Int) ≤ (if s.head? = some '-' then -((ds.foldl digitStep 0 : Nat) : Int)
              else ((ds.foldl digitStep 0 : Nat) : Int)) ∧
              (if s.head? = some '-' then -((ds.foldl digitStep 0 : Nat) : Int)
              else ((ds.foldl digitStep 0 : Nat) : Int)) < 2 ^ 63) := by
          norm_num at hbound
          split_ifs <;> omega
        rw [if_pos hr]
        rfl
      · rw [if_neg hall, if_neg (fun h => hall h.2)]
        rfl
  · rw [if_neg hlen]
    exact ParseInt_toOption s 0 (Or.inl rfl)

theorem Atoi_ok_iff (s : List Char) (v : Int) : Atoi s = .ok v ↔ base10Int s = some v := by
  rw [← Atoi_toOption]
  cases Atoi s <;> simp [Except.toOption]

theorem Atoi_error_iff (s : List Char) : (∃ e, Atoi s = .error e) ↔ base10Int s = none := by
  rw [← Atoi_toOption]
  cases Atoi s <;> simp [Except.toOption]

theorem finalSegment_of_not_mem (s : List Char) (h : '/' ∉ s) : finalSegment s = s := by
  unfold finalSegment
  have : s.reverse.takeWhile (fun c => decide (c ≠ '/')) = s.reverse := by
    rw [List.takeWhile_eq_self_iff]
    intro x hx
    have hx' : x ∈ s := List.mem_reverse.mp hx
    have : x ≠ '/' := fun e => h (e ▸ hx')
    simpa using this
  rw [this, List.reverse_reverse]

theorem finalSegment_cons_of_mem (c : Char) (cs : List Char) (h : '/' ∈ cs) :
    finalSegment (c :: cs) = finalSegment cs := by
  unfold finalSegment
  rw [List.reverse_cons, List.takeWhile_append]
  have hne : ¬ (cs.reverse.takeWhile (fun c => decide (c ≠ '/'))).length = cs.reverse.length := by
    intro hlen
    have hall : cs.reverse.takeWhile (fun c => decide (c ≠ '/')) = cs.reverse := by
      have hsub := List.takeWhile_sublist (fun c => decide (c ≠ '/')) (l := cs.reverse)
      exact hsub.eq_of_length hlen
    rw [List.takeWhile_eq_self_iff] at hall
    have := hall '/' (List.mem_reverse.mpr h)
    simp at this
  rw [if_neg hne]

theorem finalSegment_slash_cons (cs : List Char) : finalSegment ('/' :: cs) = finalSegment cs := by
  by_cases h : '/' ∈ cs
  · exact finalSegment_cons_of_mem '/' cs h
  · rw [finalSegment_of_not_mem cs h]
    unfold finalSegment
    have hall : ∀ a ∈ cs.reverse, (fun c => decide (c ≠ '/')) a = true := by
      intro a ha
      have : a ≠ '/' := fun e => h (e ▸ List.mem_reverse.mp ha)
      simpa using this
    rw [List.reverse_cons, List.takeWhile_append_of_pos hall]
    simp

theorem Split_of_not_mem (s : List Char) (h : '/' ∉ s) : Split s '/' = [s] := by
  induction s with
  | nil => rfl
  | cons c cs ih =>
    have hc : c ≠ '/' := fun e => h (e ▸ List.mem_cons_self _ _)
    have hcs : '/' ∉ cs := fun hm => h (List.mem_cons_of_mem _ hm)
    simp [Split, hc, ih hcs]

theorem Split_length_of_mem (s : List Char) (h : '/' ∈ s) : 2 ≤ (Split s '/').length := by
  induction s with
  | nil => simp at h
  | cons c cs ih =>
    by_cases hc : c = '/'
    · have hpos : 1 ≤ (Split cs '/').length := by
        cases cs with
        | nil => simp [Split]
        | cons d ds =>
          by_cases hm : '/' ∈ d :: ds
          · have := ih hm
            omega
          · rw [Split_of_not_mem _ hm]
            simp
      simp only [Split, hc, if_true, List.length_cons]
      omega
    · have hm : '/' ∈ cs := by
        rcases List.mem_cons.mp h with e | hm
        · exact absurd e.symm hc
        · exact hm
      have := ih hm
      simp only [Split, hc, if_false]
      cases hsp : Split cs '/' with
      | nil => rw [hsp] at this; simp at this
      | cons p ps => rw [hsp] at this; simpa using this

/-- The last piece of `strings.Split(path, "/")` exists and is the final
segment of the path. -/
theorem Split_getLast (s : List Char) : (Split s '/').getLast? = some (finalSegment s) := by
  induction s with
  | nil => rfl
  | cons c cs ih =>
    by_cases hc : c = '/'
    · subst hc
      rw [finalSegment_slash_cons]
      simp only [Split, if_true]
      cases hsp : Split cs '/' with
      | nil => rw [hsp] at ih; simp at ih
      | cons p ps => rw [hsp] at ih; rw [List.getLast?_cons_cons]; exact ih
    · by_cases hm : '/' ∈ cs
      · rw [finalSegment_cons_of_mem c cs hm]
        have hlen := Split_length_of_mem cs hm
        simp only [Split, hc, if_false]
        cases hsp : Split cs '/' with
        | nil => rw [hsp] at ih; simp at ih
        | cons p ps =>
          rw [hsp] at ih hlen
          cases ps with
          | nil => simp at hlen
          | cons q qs =>
            simp only [List.getLast?_cons_cons] at ih ⊢
            exact ih
      · have hm2 : '/' ∉ c :: cs := by
          intro h
          rcases List.mem_cons.mp h with e | h2
          · exact hc e.symm
          · exact hm h2
        rw [Split_of_not_mem _ hm2, finalSegment_of_not_mem _ hm2]
        rfl

/-- The handler `DeleteTask` with the last piece of the split path replaced by the final
segment. -/
theorem DeleteTask_eq (f : Faults) (db : DB) (path : String) :
    DeleteTask f db path =
      if finalSegment path.toList = [] then
        ⟨some (httpError "id parameter is missing" StatusBadRequest), db, []⟩
      else
        match Atoi (finalSegment path.toList) with
        | .error _ => ⟨some (httpError "invalid id parameter" StatusBadRequest), db, []⟩
        | .ok id =>
          match f.exec with
          | some e =>
            ⟨some (httpErrorOf (.storage e) StatusInternalServerError), db, [.delete id]⟩
          | Option.none =>
            match f.rowsAffected with
            | some e =>
              ⟨some (httpErrorOf (.storage e) StatusInternalServerError), (db.delete id).1,
                [.delete id]⟩
            | Option.none =>
              if (db.delete id).2 = 0 then
                ⟨some (httpError ("task with id " ++ toString id ++ " not found") StatusNotFound),
                  (db.delete id).1, [.delete id]⟩
              else
                ⟨some ⟨StatusOK, Option.none, .text (toString id)⟩, (db.delete id).1,
                  [.delete id]⟩ := by
  unfold DeleteTask
  simp only [Split_getLast]

/-- C1: `DeleteTask` answers 400 exactly when the final segment of the path is empty or
is no valid base-10 integer (optional sign, decimal digits, within the range of `int`),
and when it answers 400 it has sent no statement to storage and the table is unchanged. -/
theorem DeleteTask_bad_request_iff (f : Faults) (db : DB) (path : String) :
    ((DeleteTask f db path).resp.map (fun r => r.status) = some 400 ↔
      (finalSegment path.toList = [] ∨ base10Int (finalSegment path.toList) = none)) ∧
    ((DeleteTask f db path).resp.map (fun r => r.status) = some 400 →
      (DeleteTask f db path).trace = [] ∧ (DeleteTask f db path).db = db) := by
  rw [DeleteTask_eq]
  generalize finalSegment path.toList = seg
  by_cases hempty : seg = []
  · simp [hempty, httpError, StatusBadRequest]
  · rw [if_neg hempty]
    have hA := Atoi_toOption seg
    cases hres : Atoi seg with
    | error e =>
      rw [hres] at hA
      have hnone : base10Int seg = none := by
        rw [← hA]
        rfl
      simp [hnone, httpError, StatusBadRequest]
    | ok id =>
      rw [hres] at hA
      have hsome : base10Int seg = some id := by
        rw [← hA]
        rfl
      simp only [hsome, hempty, false_or]
      cases f.exec with
      | some e => simp [httpErrorOf, StatusInternalServerError]
      | none =>
        cases f.rowsAffected with
        | some e => simp [httpErrorOf, StatusInternalServerError]
        | none =>
          by_cases hz : (db.delete id).2 = 0
          · simp [hz, httpError, StatusNotFound]
          · simp [hz, StatusOK]

/-! ### Storage lemmas -/

theorem DB.delete_absent (db : DB) (id : Int) (h : ∀ r ∈ db.rows, r.id ≠ id) :
    db.delete id = (db, 0) := by
  have h1 : db.rows.filter (fun r => decide (r.id ≠ id)) = db.rows := by
    rw [List.filter_eq_self]
    intro r hr
    simpa using h r hr
  have h2 : db.rows.filter (fun r => decide (r.id = id)) = [] := by
    rw [List.filter_eq_nil_iff]
    intro r hr
    simpa using h r hr
  unfold DB.delete
  rw [h1, h2]
  rfl

theorem DB.delete_present (db : DB) (id : Int) (h : ∃ r ∈ db.rows, r.id = id) :
    (db.delete id).2 ≠ 0 := by
  obtain ⟨r, hr, hid⟩ := h
  have hm : r ∈ db.rows.filter (fun r => decide (r.id = id)) := by
    rw [List.mem_filter]
    exact ⟨hr, by simpa using hid⟩
  unfold DB.delete
  intro hz
  have := List.length_pos_of_mem hm
  simp only at hz
  omega

theorem DB.delete_rows (db : DB) (id : Int) :
    (db.delete id).1.rows = db.rows.filter (fun r => r.id ≠ id) := rfl

theorem DB.delete_no_id (db : DB) (id : Int) : ∀ r ∈ (db.delete id).1.rows, r.id ≠ id := by
  intro r hr
  rw [DB.delete_rows, List.mem_filter] at hr
  simpa using hr.2

/-! ### Listing without storage failures -/

theorem scanRows_ok (g : Faults) (hn : g.next = Option.none) (hs : ∀ i, g.scan i = Option.none)
    (rows : List Row) (i : Nat) (acc : List Task) :
    scanRows g rows i acc =
      .ok (acc ++ rows.map (fun r => ⟨r.id, r.title, r.description, Time.zero, Time.zero⟩)) := by
  induction rows generalizing i acc with
  | nil => simp [scanRows]
  | cons r rs ih =>
    simp only [scanRows, hn, hs, List.map_cons]
    rw [if_neg (by simp), ih]
    simp [Task.zero]

theorem encodeTask_zero_time (r : Row) :
    encodeTask ⟨r.id, r.title, r.description, Time.zero, Time.zero⟩ = .ok (rowJSON r) := by
  have h : Time.zero.MarshalJSON = .ok "0001-01-01T00:00:00Z" := by decide
  simp only [encodeTask, h, rowJSON]

theorem encodeList_rows (rows : List Row) :
    encodeList (rows.map (fun r => ⟨r.id, r.title, r.description, Time.zero, Time.zero⟩)) =
      .ok (rows.map rowJSON) := by
  induction rows with
  | nil => rfl
  | cons r rs ih => simp only [List.map_cons, encodeList, encodeTask_zero_time, ih]

/-- Without a storage failure `GetAllTasks` answers 200 with one JSON object per row. -/
theorem GetAllTasks_no_fault (g : Faults) (hq : g.query = Option.none)
    (hn : g.next = Option.none) (hs : ∀ i, g.scan i = Option.none) (db : DB) :
    GetAllTasks g db =
      ⟨some ⟨200, some "application/json", .json (.arr (db.rows.map rowJSON))⟩, db, [.select]⟩ := by
  unfold GetAllTasks
  simp only [hq, scanRows_ok g hn hs, List.nil_append, encodeTasks, encodeList_rows]
  rfl

/-! ### Deleting -/

theorem base10Int_ne_nil {seg : List Char} {id : Int} (h : base10Int seg = some id) :
    seg ≠ [] := by
  intro e
  rw [e] at h
  simp [base10Int] at h

/-- What `DeleteTask` does when the path ends in the integer `id` and storage reports
no failure. -/
theorem DeleteTask_of_id (f : Faults) (db : DB) (path : String) (id : Int)
    (hid : base10Int (finalSegment path.toList) = some id)
    (hexec : f.exec = Option.none) (hra : f.rowsAffected = Option.none) :
    DeleteTask f db path =
      if (db.delete id).2 = 0 then
        ⟨some (httpError ("task with id " ++ toString id ++ " not found") 404),
          (db.delete id).1, [.delete id]⟩
      else ⟨some ⟨200, Option.none, .text (toString id)⟩, (db.delete id).1, [.delete id]⟩ := by
  rw [DeleteTask_eq, if_neg (base10Int_ne_nil hid), (Atoi_ok_iff _ _).mpr hid]
  simp only [hexec, hra]
  rfl

/-- C3: when the path ends in an integer that is the id of no row, and storage executes
the statement, `DeleteTask` answers 404 and leaves the table as it was; and whatever
storage reports, the answer is not 200. -/
theorem DeleteTask_absent_id (db : DB) (path : String) (id : Int)
    (hid : base10Int (finalSegment path.toList) = some id)
    (habs : ∀ r ∈ db.rows, r.id ≠ id) :
    (∀ f : Faults, f.exec = Option.none → f.rowsAffected = Option.none →
      DeleteTask f db path =
        ⟨some (httpError ("task with id " ++ toString id ++ " not found") 404), db,
          [.delete id]⟩) ∧
    (∀ f : Faults, (DeleteTask f db path).resp.map (fun r => r.status) ≠ some 200) := by
  have hdel := DB.delete_absent db id habs
  constructor
  · intro f hexec hra
    rw [DeleteTask_of_id f db path id hid hexec hra, hdel]
    rfl
  · intro f
    rw [DeleteTask_eq, if_neg (base10Int_ne_nil hid), (Atoi_ok_iff _ _).mpr hid]
    simp only [hdel]
    cases f.exec with
    | some e => simp [httpErrorOf, StatusInternalServerError]
    | none =>
      cases f.rowsAffected with
      | some e => simp [httpErrorOf, StatusInternalServerError]
      | none => simp [httpError, StatusNotFound]

theorem DeleteTask_absent_id_witness :
    (∀ f : Faults, f.exec = Option.none → f.rowsAffected = Option.none →
      DeleteTask f ⟨[⟨1, "a", "b", Time.zero, Time.zero⟩], 2⟩ "/tasks/delete/7" =
        ⟨some (httpError ("task with id " ++ toString (7 : Int) ++ " not found") 404),
          ⟨[⟨1, "a", "b", Time.zero, Time.zero⟩], 2⟩, [.delete 7]⟩) ∧
    (∀ f : Faults,
      (DeleteTask f ⟨[⟨1, "a", "b", Time.zero, Time.zero⟩], 2⟩ "/tasks/delete/7").resp.map
        (fun r => r.status) ≠ some 200) :=
  DeleteTask_absent_id ⟨[⟨1, "a", "b", Time.zero, Time.zero⟩], 2⟩ "/tasks/delete/7" 7
    (by decide) (by decide)

/-- C2: when the path ends in the id of a row that is present and storage reports no
failure, `DeleteTask` answers 200 with the id in decimal as the body and removes the rows
with that id and no other; a `GetAllTasks` after it lists exactly the other rows, none of
which has the id; and a second `DeleteTask` of the same id answers 404. -/
theorem DeleteTask_present_id (f g : Faults) (db : DB) (path path2 : String) (id : Int)
    (hid : base10Int (finalSegment path.toList) = some id)
    (hid2 : base10Int (finalSegment path2.toList) = some id)
    (hpresent : ∃ r ∈ db.rows, r.id = id)
    (hexec : f.exec = Option.none) (hra : f.rowsAffected = Option.none)
    (hq : g.query = Option.none) (hn : g.next = Option.none)
    (hs : ∀ i, g.scan i = Option.none) :
    (DeleteTask f db path).resp = some ⟨200, Option.none, .text (toString id)⟩ ∧
    (DeleteTask f db path).db.rows = db.rows.filter (fun r => r.id ≠ id) ∧
    (∀ r ∈ (DeleteTask f db path).db.rows, r.id ≠ id) ∧
    (GetAllTasks g (DeleteTask f db path).db).resp =
      some ⟨200, some "application/json",
        .json (.arr ((db.rows.filter (fun r => r.id ≠ id)).map rowJSON))⟩ ∧
    (DeleteTask f (DeleteTask f db path).db path2).resp =
      some (httpError ("task with id " ++ toString id ++ " not found") 404) := by
  have h1 := DeleteTask_of_id f db path id hid hexec hra
  rw [if_neg (DB.delete_present db id hpresent)] at h1
  have hdb : (DeleteTask f db path).db = (db.delete id).1 := by rw [h1]
  have hno := DB.delete_no_id db id
  refine ⟨by rw [h1], by rw [hdb, DB.delete_rows], by rw [hdb]; exact hno, ?_, ?_⟩
  · rw [hdb, GetAllTasks_no_fault g hq hn hs, DB.delete_rows]
  · rw [hdb, DeleteTask_of_id f _ path2 id hid2 hexec hra, DB.delete_absent _ id hno]
    rfl

theorem DeleteTask_present_id_witness :
    (DeleteTask Faults.none ⟨[⟨1, "a", "b", Time.zero, Time.zero⟩,
      ⟨2, "c", "d", Time.zero, Time.zero⟩], 3⟩ "/tasks/delete/2").resp =
        some ⟨200, Option.none, .text "2"⟩ ∧
    (GetAllTasks Faults.none (DeleteTask Faults.none ⟨[⟨1, "a", "b", Time.zero, Time.zero⟩,
      ⟨2, "c", "d", Time.zero, Time.zero⟩], 3⟩ "/tasks/delete/2").db).resp =
        some ⟨200, some "application/json",
          .json (.arr [rowJSON ⟨1, "a", "b", Time.zero, Time.zero⟩])⟩ ∧
    (DeleteTask Faults.none (DeleteTask Faults.none ⟨[⟨1, "a", "b", Time.zero, Time.zero⟩,
      ⟨2, "c", "d", Time.zero, Time.zero⟩], 3⟩ "/tasks/delete/2").db "/tasks/delete/+2").resp =
        some (httpError "task with id 2 not found" 404) :=
  have h := DeleteTask_present_id Faults.none Faults.none
    ⟨[⟨1, "a", "b", Time.zero, Time.zero⟩, ⟨2, "c", "d", Time.zero, Time.zero⟩], 3⟩
    "/tasks/delete/2" "/tasks/delete/+2" 2 (by decide) (by decide)
    ⟨⟨2, "c", "d", Time.zero, Time.zero⟩, by decide, rfl⟩ rfl rfl rfl rfl (fun _ => rfl)
  ⟨h.1, h.2.2.2.1, h.2.2.2.2⟩

/-! ### Creating -/

theorem findField_id : findField "id" = some .id := by decide
theorem findField_title : findField "title" = some .title := by decide
theorem findField_description : findField "description" = some .description := by decide
theorem findField_created_at : findField "created_at" = some .created_at := by decide
theorem findField_updated_at : findField "updated_at" = some .updated_at := by decide

/-- The payload with a string title and a string description decodes into a `Task` with
these two fields set and the others zero. -/
theorem decodeTask_title_description (pt : String → Except String Time) (t d : String) :
    decodeTask pt (.ok (.obj [("title", .str t), ("description", .str d)])) =
      .ok ⟨0, t, d, Time.zero, Time.zero⟩ := by
  simp only [decodeTask, decodeObject, findField_title, findField_description, decodeValue,
    Task.zero]

/-- The handler `CreateTask` after a successful decode uses the title and the description
of the decoded `Task` and nothing else of it. -/
theorem CreateTask_of_decoded (pt : String → Except String Time) (env : Env) (f : Faults)
    (db : DB) (body : Except String JSON) (task : Task) (h : decodeTask pt body = .ok task) :
    CreateTask pt env f db body =
      match env.LoadLocation "Asia/Tokyo" with
      | Option.none => ⟨Option.none, db, []⟩
      | some jst =>
        match f.prepare with
        | some e =>
          ⟨some (httpErrorOf (.storage e) StatusInternalServerError), db, [.prepareInsert]⟩
        | Option.none =>
          match f.exec with
          | some e =>
            ⟨some (httpErrorOf (.storage e) StatusInternalServerError), db,
              [.prepareInsert, .execInsert task.Title task.Description (env.Now 0 jst) (env.Now 0 jst)]⟩
          | Option.none =>
            match db.insert task.Title task.Description (env.Now 0 jst) (env.Now 0 jst) with
            | (db1, some e) =>
              ⟨some (httpErrorOf (.storage e) StatusInternalServerError), db1,
                [.prepareInsert,
                  .execInsert task.Title task.Description (env.Now 0 jst) (env.Now 0 jst)]⟩
            | (db1, Option.none) =>
              ⟨some ⟨StatusCreated, Option.none, .empty⟩, db1,
                [.prepareInsert,
                  .execInsert task.Title task.Description (env.Now 0 jst) (env.Now 0 jst)]⟩ := by
  unfold CreateTask
  rw [h]

/-- A `CreateTask` that answers 201 decoded the body, loaded the location, met no storage
failure and no row with the next id, and appended one row. -/
theorem CreateTask_of_created (pt : String → Except String Time) (env : Env) (f : Faults)
    (db : DB) (body : Except String JSON)
    (h : (CreateTask pt env f db body).resp.map (fun r => r.status) = some 201) :
    ∃ task jst, decodeTask pt body = .ok task ∧ env.LoadLocation "Asia/Tokyo" = some jst ∧
      (∀ r ∈ db.rows, r.id ≠ db.nextId) ∧
      CreateTask pt env f db body =
        ⟨some ⟨201, Option.none, .empty⟩,
          ⟨db.rows ++ [⟨db.nextId, task.Title, task.Description, env.Now 0 jst, env.Now 0 jst⟩],
            db.nextId + 1⟩,
          [.prepareInsert, .execInsert task.Title task.Description (env.Now 0 jst) (env.Now 0 jst)]⟩ := by
  cases hdec : decodeTask pt body with
  | error e =>
    simp [CreateTask, hdec, httpErrorOf, StatusBadRequest] at h
  | ok task =>
    rw [CreateTask_of_decoded pt env f db body task hdec] at h ⊢
    cases hloc : env.LoadLocation "Asia/Tokyo" with
    | none => simp [hloc] at h
    | some jst =>
      simp only [hloc] at h ⊢
      cases hprep : f.prepare with
      | some e => simp [hprep, httpErrorOf, StatusInternalServerError] at h
      | none =>
        simp only [hprep] at h ⊢
        cases hexec : f.exec with
        | some e => simp [hexec, httpErrorOf, StatusInternalServerError] at h
        | none =>
          simp only [hexec] at h ⊢
          by_cases hdup : db.rows.any (fun r => r.id = db.nextId) = true
          · simp [DB.insert, hdup, httpErrorOf, StatusInternalServerError] at h
          · have hfresh : ∀ r ∈ db.rows, r.id ≠ db.nextId := by
              intro r hr e
              apply hdup
              rw [List.any_eq_true]
              exact ⟨r, hr, by simpa using e⟩
            refine ⟨task, jst, rfl, rfl, hfresh, ?_⟩
            simp only [DB.insert, hdup]
            rfl

/-- C5: `CreateTask` answers 400 exactly when the body cannot be decoded into a `Task`,
and then it has sent no statement to storage (no INSERT is prepared or executed) and the
table is unchanged. -/
theorem CreateTask_bad_request_iff (pt : String → Except String Time) (env : Env)
    (f : Faults) (db : DB) (body : Except String JSON) :
    ((CreateTask pt env f db body).resp.map (fun r => r.status) = some 400 ↔
      ∃ e, decodeTask pt body = .error e) ∧
    (∀ e, decodeTask pt body = .error e →
      CreateTask pt env f db body = ⟨some (httpErrorOf e 400), db, []⟩) := by
  constructor
  · cases hdec : decodeTask pt body with
    | error e => simp [CreateTask, hdec, httpErrorOf, StatusBadRequest]
    | ok task =>
      rw [CreateTask_of_decoded pt env f db body task hdec]
      cases env.LoadLocation "Asia/Tokyo" with
      | none => simp
      | some jst =>
        cases f.prepare with
        | some e => simp [httpErrorOf, StatusInternalServerError]
        | none =>
          cases f.exec with
          | some e => simp [httpErrorOf, StatusInternalServerError]
          | none =>
            by_cases hdup : db.rows.any (fun r => r.id = db.nextId) = true
            · simp [DB.insert, hdup, httpErrorOf, StatusInternalServerError]
            · simp [DB.insert, hdup, StatusCreated]
  · intro e hdec
    simp only [CreateTask, hdec]
    rfl

/-- C7: a `CreateTask` that answers 201 has appended exactly one row to the table, with
the title and description of the decoded payload and with `created_at` and `updated_at`
both the first and only reading of the clock, and its response is 201 with no header set by the
handler and no body. -/
theorem CreateTask_created (pt : String → Except String Time) (env : Env) (f : Faults)
    (db : DB) (body : Except String JSON)
    (h : (CreateTask pt env f db body).resp.map (fun r => r.status) = some 201) :
    ∃ (task : Task) (jst : Location) (row : Row),
      decodeTask pt body = .ok task ∧ env.LoadLocation "Asia/Tokyo" = some jst ∧
      (CreateTask pt env f db body).db.rows = db.rows ++ [row] ∧
      row.title = task.Title ∧ row.description = task.Description ∧
      row.created_at = env.Now 0 jst ∧ row.updated_at = env.Now 0 jst ∧
      row.created_at = row.updated_at ∧
      (CreateTask pt env f db body).trace =
        [.prepareInsert, .execInsert task.Title task.Description (env.Now 0 jst) (env.Now 0 jst)] ∧
      (CreateTask pt env f db body).resp = some ⟨201, Option.none, .empty⟩ := by
  obtain ⟨task, jst, hdec, hloc, _, hres⟩ := CreateTask_of_created pt env f db body h
  refine ⟨task, jst, ⟨db.nextId, task.Title, task.Description, env.Now 0 jst, env.Now 0 jst⟩,
    hdec, hloc, ?_, rfl, rfl, rfl, rfl, rfl, ?_, ?_⟩ <;> rw [hres]

theorem CreateTask_created_witness :
    ∃ (task : Task) (jst : Location) (row : Row),
      decodeTask sampleParseTime (.ok (.obj [("title", .str "a"), ("description", .str "b")])) =
        .ok task ∧
      sampleEnv.LoadLocation "Asia/Tokyo" = some jst ∧
      (CreateTask sampleParseTime sampleEnv Faults.none ⟨[], 1⟩
        (.ok (.obj [("title", .str "a"), ("description", .str "b")]))).db.rows = [] ++ [row] ∧
      row.title = task.Title ∧ row.description = task.Description ∧
      row.created_at = sampleEnv.Now 0 jst ∧ row.updated_at = sampleEnv.Now 0 jst ∧
      row.created_at = row.updated_at ∧
      (CreateTask sampleParseTime sampleEnv Faults.none ⟨[], 1⟩
        (.ok (.obj [("title", .str "a"), ("description", .str "b")]))).trace =
        [.prepareInsert,
          .execInsert task.Title task.Description (sampleEnv.Now 0 jst) (sampleEnv.Now 0 jst)] ∧
      (CreateTask sampleParseTime sampleEnv Faults.none ⟨[], 1⟩
        (.ok (.obj [("title", .str "a"), ("description", .str "b")]))).resp =
          some ⟨201, Option.none, .empty⟩ :=
  CreateTask_created sampleParseTime sampleEnv Faults.none ⟨[], 1⟩
    (.ok (.obj [("title", .str "a"), ("description", .str "b")])) (by decide)

theorem ParseInt_ok_of_base10Int (s : List Char) (n : Int) (h : base10Int s = some n) :
    ParseInt s 64 = .ok n := by
  have hP := ParseInt_toOption s 64 (Or.inr rfl)
  rw [h] at hP
  cases hres : ParseInt s 64 with
  | error e => rw [hres] at hP; simp [Except.toOption] at hP
  | ok m =>
    rw [hres] at hP
    simp only [Except.toOption, Option.some.injEq] at hP
    rw [hP]

/-- C6, as stated, fails: with the string `"7"` as `id` the decode fails, so the answer is
400 and no row is inserted, while the payload with the title and description only is
answered 201 and inserts a row. -/
theorem CreateTask_extra_fields_counterexample :
    (CreateTask sampleParseTime sampleEnv Faults.none ⟨[], 1⟩
        (.ok (.obj [("title", .str "a"), ("description", .str "b"), ("id", .str "7"),
          ("created_at", .null), ("updated_at", .null)]))).resp.map (fun r => r.status)
      = some 400 ∧
    (CreateTask sampleParseTime sampleEnv Faults.none ⟨[], 1⟩
        (.ok (.obj [("title", .str "a"), ("description", .str "b"), ("id", .str "7"),
          ("created_at", .null), ("updated_at", .null)]))).db = ⟨[], 1⟩ ∧
    (CreateTask sampleParseTime sampleEnv Faults.none ⟨[], 1⟩
        (.ok (.obj [("title", .str "a"), ("description", .str "b")]))).resp.map
          (fun r => r.status) = some 201 ∧
    (CreateTask sampleParseTime sampleEnv Faults.none ⟨[], 1⟩
        (.ok (.obj [("title", .str "a"), ("description", .str "b")]))).db =
      ⟨[⟨1, "a", "b", ⟨2024, 3, 9, 5, 4, 3, 0, 32400⟩, ⟨2024, 3, 9, 5, 4, 3, 0, 32400⟩⟩], 2⟩ := by
  decide

/-! ### Listing -/

/-- C8, where the code departs from it: the table holds two rows and the iteration fails
after the first one, so that `rows.Next()` returns false; `GetAllTasks` answers 200 with
a list of the first row only. -/
theorem GetAllTasks_iteration_failure_truncates :
    GetAllTasks ⟨Option.none, some 1, fun _ => Option.none, Option.none, Option.none, Option.none⟩
        ⟨[⟨1, "a", "b", Time.zero, Time.zero⟩, ⟨2, "c", "d", Time.zero, Time.zero⟩], 3⟩ =
      ⟨some ⟨200, some "application/json",
          .json (.arr [.obj [("id", .num "1"), ("title", .str "a"), ("description", .str "b"),
            ("created_at", .str "0001-01-01T00:00:00Z"),
            ("updated_at", .str "0001-01-01T00:00:00Z")]])⟩,
        ⟨[⟨1, "a", "b", Time.zero, Time.zero⟩, ⟨2, "c", "d", Time.zero, Time.zero⟩], 3⟩,
        [.select]⟩ := by
  rfl

/-- A failure of `db.Query` or of a `rows.Scan` that the loop reaches is answered 500. -/
theorem GetAllTasks_query_or_scan_failure (g : Faults) (db : DB) :
    (∀ e, g.query = some e →
      (GetAllTasks g db).resp = some (httpErrorOf (.storage e) 500)) ∧
    (∀ e, g.query = Option.none → scanRows g db.rows 0 [] = .error e →
      (GetAllTasks g db).resp = some (httpErrorOf (.storage e) 500)) := by
  constructor
  · intro e he
    simp only [GetAllTasks, he]
    rfl
  · intro e hq he
    simp only [GetAllTasks, hq, he]
    rfl

/-- C9: when the query succeeds on an empty table, `GetAllTasks` answers 200 with the
empty JSON array as the body, which is not `null`. -/
theorem GetAllTasks_empty (g : Faults) (db : DB) (hq : g.query = Option.none)
    (hrows : db.rows = []) :
    (GetAllTasks g db).resp = some ⟨200, some "application/json", .json (.arr [])⟩ ∧
    JSON.arr [] ≠ JSON.null := by
  constructor
  · simp only [GetAllTasks, hq, hrows, scanRows, encodeTasks, encodeList]
    rfl
  · intro h
    cases h

theorem GetAllTasks_empty_witness :
    (GetAllTasks Faults.none ⟨[], 5⟩).resp =
      some ⟨200, some "application/json", .json (.arr [])⟩ ∧
    JSON.arr [] ≠ JSON.null :=
  GetAllTasks_empty Faults.none ⟨[], 5⟩ rfl rfl

/-- C10, as amended: when the query, the iteration and every scan succeed, `GetAllTasks`
builds one `Task` per row, in the order of the rows, with the id, title and description of
the row and the zero time as `CreatedAt` and `UpdatedAt`, whatever timestamps the row
holds, and answers 200 with the JSON array of these tasks. -/
theorem GetAllTasks_lists_rows (g : Faults) (db : DB) (hq : g.query = Option.none)
    (hn : g.next = Option.none) (hs : ∀ i, g.scan i = Option.none) :
    scanRows g db.rows 0 [] =
      .ok (db.rows.map (fun r => ⟨r.id, r.title, r.description, Time.zero, Time.zero⟩)) ∧
    encodeTasks (some (db.rows.map
      (fun r => ⟨r.id, r.title, r.description, Time.zero, Time.zero⟩))) =
        .ok (.arr (db.rows.map (fun r =>
          .obj [("id", .num (toString r.id)), ("title", .str r.title),
            ("description", .str r.description), ("created_at", .str "0001-01-01T00:00:00Z"),
            ("updated_at", .str "0001-01-01T00:00:00Z")]))) ∧
    GetAllTasks g db =
      ⟨some ⟨200, some "application/json",
        .json (.arr (db.rows.map (fun r =>
          .obj [("id", .num (toString r.id)), ("title", .str r.title),
            ("description", .str r.description), ("created_at", .str "0001-01-01T00:00:00Z"),
            ("updated_at", .str "0001-01-01T00:00:00Z")])))⟩, db, [.select]⟩ := by
  refine ⟨?_, ?_, ?_⟩
  · rw [scanRows_ok g hn hs]
    rfl
  · simp only [encodeTasks, encodeList_rows]
    rfl
  · rw [GetAllTasks_no_fault g hq hn hs]
    rfl

theorem GetAllTasks_lists_rows_witness :
    GetAllTasks Faults.none
        ⟨[⟨2, "c", "d", ⟨2024, 3, 9, 5, 4, 3, 0, 32400⟩, ⟨2024, 3, 9, 5, 4, 3, 0, 32400⟩⟩,
          ⟨1, "a", "b", Time.zero, Time.zero⟩], 3⟩ =
      ⟨some ⟨200, some "application/json",
        .json (.arr [
          .obj [("id", .num "2"), ("title", .str "c"), ("description", .str "d"),
            ("created_at", .str "0001-01-01T00:00:00Z"),
            ("updated_at", .str "0001-01-01T00:00:00Z")],
          .obj [("id", .num "1"), ("title", .str "a"), ("description", .str "b"),
            ("created_at", .str "0001-01-01T00:00:00Z"),
            ("updated_at", .str "0001-01-01T00:00:00Z")]])⟩,
        ⟨[⟨2, "c", "d", ⟨2024, 3, 9, 5, 4, 3, 0, 32400⟩, ⟨2024, 3, 9, 5, 4, 3, 0, 32400⟩⟩,
          ⟨1, "a", "b", Time.zero, Time.zero⟩], 3⟩, [.select]⟩ :=
  (GetAllTasks_lists_rows Faults.none
    ⟨[⟨2, "c", "d", ⟨2024, 3, 9, 5, 4, 3, 0, 32400⟩, ⟨2024, 3, 9, 5, 4, 3, 0, 32400⟩⟩,
      ⟨1, "a", "b", Time.zero, Time.zero⟩], 3⟩ rfl rfl (fun _ => rfl)).2.2

/-! ### Member names -/

theorem Char.eq_of_toNat_eq {c d : Char} (h : c.toNat = d.toNat) : c = d := by
  rw [← Char.ofNat_toNat c, ← Char.ofNat_toNat d, h]

theorem toNat_ofNat_upper : ∀ n < 26, (Char.ofNat (65 + n)).toNat = 65 + n := by decide

theorem toNat_ofNat_lower : ∀ n < 26, (Char.ofNat (97 + n)).toNat = 97 + n := by decide

theorem foldRune_toNat (c : Char) :
    (foldRune c).toNat =
      if 97 ≤ c.toNat ∧ c.toNat ≤ 122 then c.toNat - 32
      else if c.toNat = 383 then 83 else if c.toNat = 8490 then 75 else c.toNat := by
  have ha : ('a' ≤ c ∧ c ≤ 'z') ↔ (97 ≤ c.toNat ∧ c.toNat ≤ 122) := Iff.rfl
  have h1 : c = '\u017f' ↔ c.toNat = 383 :=
    ⟨fun h => by rw [h]; rfl, fun h => Char.eq_of_toNat_eq h⟩
  have h2 : c = '\u212a' ↔ c.toNat = 8490 :=
    ⟨fun h => by rw [h]; rfl, fun h => Char.eq_of_toNat_eq h⟩
  unfold foldRune
  simp only [ha, h1, h2]
  split_ifs with hr h383 h8490
  · have := toNat_ofNat_upper (c.toNat - 97) (by omega)
    have e : 65 + (c.toNat - 97) = c.toNat - 32 := by omega
    rw [e] at this
    exact this
  · rfl
  · rfl
  · rfl

theorem lowerRune_toNat (c : Char) :
    (lowerRune c).toNat =
      if 65 ≤ c.toNat ∧ c.toNat ≤ 90 then c.toNat + 32
      else if c.toNat = 383 then 115 else if c.toNat = 8490 then 107 else c.toNat := by
  have ha : ('A' ≤ c ∧ c ≤ 'Z') ↔ (65 ≤ c.toNat ∧ c.toNat ≤ 90) := Iff.rfl
  have h1 : c = '\u017f' ↔ c.toNat = 383 :=
    ⟨fun h => by rw [h]; rfl, fun h => Char.eq_of_toNat_eq h⟩
  have h2 : c = '\u212a' ↔ c.toNat = 8490 :=
    ⟨fun h => by rw [h]; rfl, fun h => Char.eq_of_toNat_eq h⟩
  unfold lowerRune
  simp only [ha, h1, h2]
  split_ifs with hr h383 h8490
  · have := toNat_ofNat_lower (c.toNat - 65) (by omega)
    have e : 97 + (c.toNat - 65) = c.toNat + 32 := by omega
    rw [e] at this
    exact this
  · rfl
  · rfl
  · rfl

/-- Two characters have the same folded form exactly when they have the same lower-case
form. -/
theorem foldRune_eq_iff (c d : Char) : foldRune c = foldRune d ↔ lowerRune c = lowerRune d := by
  have hf : foldRune c = foldRune d ↔ (foldRune c).toNat = (foldRune d).toNat :=
    ⟨fun h => by rw [h], Char.eq_of_toNat_eq⟩
  have hl : lowerRune c = lowerRune d ↔ (lowerRune c).toNat = (lowerRune d).toNat :=
    ⟨fun h => by rw [h], Char.eq_of_toNat_eq⟩
  rw [hf, hl, foldRune_toNat, foldRune_toNat, lowerRune_toNat, lowerRune_toNat]
  split_ifs <;> omega

theorem map_foldRune_eq_iff (a b : List Char) :
    a.map foldRune = b.map foldRune ↔ a.map lowerRune = b.map lowerRune := by
  induction a generalizing b with
  | nil => cases b <;> simp
  | cons c cs ih =>
    cases b with
    | nil => simp
    | cons e es => simp only [List.map_cons, List.cons.injEq, foldRune_eq_iff, ih]

theorem lowerKey_name (f : Field) : lowerKey f.name = f.name.toList := by
  cases f <;> decide

theorem Field.name_toList_inj {f g : Field} (h : f.name.toList = g.name.toList) : f = g := by
  cases f <;> cases g <;> first | rfl | (exact absurd h (by decide))

theorem Field.mem_all (f : Field) : f ∈ Field.all := by
  cases f <;> decide

/-- The decoder finds for a member name the field the name stands for when case is
ignored: an exact match is such a field, and the folded forms agree exactly when the
lower-case forms do. -/
theorem findField_eq_fieldOfKey (key : String) : findField key = fieldOfKey key := by
  have hfold : ∀ f : Field,
      decide (foldName f.name = foldName key) = decide (lowerKey key = f.name.toList) := by
    intro f
    have h : foldName f.name = foldName key ↔ lowerKey key = f.name.toList := by
      have h1 : foldName f.name = foldName key ↔ lowerKey f.name = lowerKey key :=
        map_foldRune_eq_iff _ _
      rw [h1, lowerKey_name]
      exact eq_comm
    exact decide_eq_decide.mpr h
  unfold findField fieldOfKey
  cases hexact : Field.all.find? (fun f => decide (f.name = key)) with
  | some f =>
    have hname : f.name = key := by simpa using List.find?_some hexact
    have hP : lowerKey key = f.name.toList := by rw [← hname, lowerKey_name]
    cases hspec : Field.all.find? (fun f => decide (lowerKey key = f.name.toList)) with
    | none =>
      have := List.find?_eq_none.mp hspec f (Field.mem_all f)
      simp [hP] at this
    | some g =>
      have hg : lowerKey key = g.name.toList := by simpa using List.find?_some hspec
      have : f = g := Field.name_toList_inj (hP.symm.trans hg)
      simp [this]
  | none =>
    simp only [hfold]

/-! ### Decoding payloads -/

theorem ParseInt64_of_isSome (lit : String) (h : (base10Int lit.toList).isSome = true) :
    ∃ n, ParseInt lit.toList 64 = .ok n := by
  obtain ⟨n, hn⟩ := Option.isSome_iff_exists.mp h
  exact ⟨n, ParseInt_ok_of_base10Int _ _ hn⟩

theorem parseTime_of_isSome (pt : String → Except String Time) (s : String)
    (h : (pt s).toOption.isSome = true) : ∃ tm, pt s = .ok tm := by
  cases hp : pt s with
  | error e => rw [hp] at h; simp [Except.toOption] at h
  | ok tm => exact ⟨tm, rfl⟩

/-- Decoding a member that fits the payload: no error is saved, a `title` member sets the
title, a `description` member sets the description, and every other member leaves both. -/
theorem decodeValue_memberOK (pt : String → Except String Time) (t d : String)
    (st : DecodeState) (k : String) (v : JSON) (f : Field) (hk : fieldOfKey k = some f)
    (hOK : memberOK pt t d (k, v) = true) (hs : st.saved = Option.none) :
    ∃ st1, decodeValue pt st f v = .ok st1 ∧ st1.saved = Option.none ∧
      st1.task.Title = (if f = .title then t else st.task.Title) ∧
      st1.task.Description = (if f = .description then d else st.task.Description) := by
  unfold memberOK at hOK
  simp only [hk] at hOK
  cases f with
  | id =>
    cases v with
    | null => exact ⟨st, rfl, hs, by simp, by simp⟩
    | num lit =>
      obtain ⟨n, hn⟩ := ParseInt64_of_isSome lit hOK
      refine ⟨{ st with task := { st.task with ID := n } }, ?_, hs, by simp, by simp⟩
      simp only [decodeValue, hn]
    | bool b => simp [wellTyped] at hOK
    | str s => simp [wellTyped] at hOK
    | arr xs => simp [wellTyped] at hOK
    | obj kvs => simp [wellTyped] at hOK
  | title =>
    cases v with
    | str s =>
      have hst : s = t := by simpa using hOK
      subst hst
      exact ⟨{ st with task := { st.task with Title := s } }, rfl, hs, by simp, by simp⟩
    | null => simp at hOK
    | num lit => simp at hOK
    | bool b => simp at hOK
    | arr xs => simp at hOK
    | obj kvs => simp at hOK
  | description =>
    cases v with
    | str s =>
      have hsd : s = d := by simpa using hOK
      subst hsd
      exact ⟨{ st with task := { st.task with Description := s } }, rfl, hs, by simp, by simp⟩
    | null => simp at hOK
    | num lit => simp at hOK
    | bool b => simp at hOK
    | arr xs => simp at hOK
    | obj kvs => simp at hOK
  | created_at =>
    cases v with
    | null => exact ⟨st, rfl, hs, by simp, by simp⟩
    | str s =>
      obtain ⟨tm, htm⟩ := parseTime_of_isSome pt s hOK
      refine ⟨{ st with task := { st.task with CreatedAt := tm } }, ?_, hs, by simp, by simp⟩
      simp only [decodeValue, htm]
    | num lit => simp [wellTyped] at hOK
    | bool b => simp [wellTyped] at hOK
    | arr xs => simp [wellTyped] at hOK
    | obj kvs => simp [wellTyped] at hOK
  | updated_at =>
    cases v with
    | null => exact ⟨st, rfl, hs, by simp, by simp⟩
    | str s =>
      obtain ⟨tm, htm⟩ := parseTime_of_isSome pt s hOK
      refine ⟨{ st with task := { st.task with UpdatedAt := tm } }, ?_, hs, by simp, by simp⟩
      simp only [decodeValue, htm]
    | num lit => simp [wellTyped] at hOK
    | bool b => simp [wellTyped] at hOK
    | arr xs => simp [wellTyped] at hOK
    | obj kvs => simp [wellTyped] at hOK

/-- Decoding the members of a payload all of whose members fit: no error is saved, the
title is `t` once a member stands for `title`, and likewise the description. -/
theorem decodeObject_memberOK (pt : String → Except String Time) (t d : String)
    (kvs : List (String × JSON)) (st : DecodeState) (hs : st.saved = Option.none)
    (hall : ∀ kv ∈ kvs, memberOK pt t d kv = true) :
    ∃ st1, decodeObject pt kvs st = .ok st1 ∧ st1.saved = Option.none ∧
      st1.task.Title =
        (if kvs.any (fun kv => fieldOfKey kv.1 = some .title) = true then t
          else st.task.Title) ∧
      st1.task.Description =
        (if kvs.any (fun kv => fieldOfKey kv.1 = some .description) = true then d
          else st.task.Description) := by
  induction kvs generalizing st with
  | nil => exact ⟨st, rfl, hs, by simp, by simp⟩
  | cons kv rest ih =>
    obtain ⟨k, v⟩ := kv
    have hrest : ∀ kv ∈ rest, memberOK pt t d kv = true :=
      fun kv h => hall kv (List.mem_cons_of_mem _ h)
    have hkv : memberOK pt t d (k, v) = true := hall (k, v) (List.mem_cons_self _ _)
    cases hk : fieldOfKey k with
    | none =>
      obtain ⟨st1, h1, h2, h3, h4⟩ := ih st hs hrest
      refine ⟨st1, ?_, h2, ?_, ?_⟩
      · simp only [decodeObject, findField_eq_fieldOfKey, hk]
        exact h1
      · have hno : decide (fieldOfKey k = some Field.title) = false := by rw [hk]; rfl
        rw [h3, List.any_cons, hno, Bool.false_or]
      · have hno : decide (fieldOfKey k = some Field.description) = false := by rw [hk]; rfl
        rw [h4, List.any_cons, hno, Bool.false_or]
    | some f =>
      obtain ⟨st0, e0, s0, t0, d0⟩ := decodeValue_memberOK pt t d st k v f hk hkv hs
      obtain ⟨st1, h1, h2, h3, h4⟩ := ih st0 s0 hrest
      refine ⟨st1, ?_, h2, ?_, ?_⟩
      · simp only [decodeObject, findField_eq_fieldOfKey, hk, e0]
        exact h1
      · rw [h3, t0, List.any_cons, hk]
        by_cases hf : f = .title
        · subst hf
          simp
        · have hno : decide (some f = some Field.title) = false := by simpa using hf
          rw [hno, Bool.false_or, if_neg hf]
      · rw [h4, d0, List.any_cons, hk]
        by_cases hf : f = .description
        · subst hf
          simp
        · have hno : decide (some f = some Field.description) = false := by simpa using hf
          rw [hno, Bool.false_or, if_neg hf]

/-- A valid payload decodes into a `Task` with its title and description. -/
theorem decodeTask_validPayload (pt : String → Except String Time)
    (kvs : List (String × JSON)) (t d : String) (h : validPayload pt kvs t d = true) :
    ∃ task, decodeTask pt (.ok (.obj kvs)) = .ok task ∧ task.Title = t ∧
      task.Description = d := by
  unfold validPayload at h
  simp only [Bool.and_eq_true] at h
  obtain ⟨⟨hall, ht⟩, hd⟩ := h
  obtain ⟨st1, h1, h2, h3, h4⟩ :=
    decodeObject_memberOK pt t d kvs ⟨Task.zero, Option.none⟩ rfl
      (fun kv hkv => List.all_eq_true.mp hall kv hkv)
  refine ⟨st1.task, ?_, ?_, ?_⟩
  · simp only [decodeTask, h1, h2]
  · rw [h3, if_pos ht]
  · rw [h4, if_pos hd]

theorem saveError_saved (st : DecodeState) (e : GoError) :
    (st.saveError e).saved ≠ Option.none := by
  unfold DecodeState.saveError
  cases hs : st.saved with
  | none => simp
  | some e0 => simp [hs]

theorem saveError_of_saved (st : DecodeState) (e : GoError) (hs : st.saved ≠ Option.none) :
    st.saveError e = st := by
  unfold DecodeState.saveError
  cases h : st.saved with
  | none => exact absurd h hs
  | some e0 => rfl

theorem ParseInt64_error_of_none (lit : String) (h : base10Int lit.toList = Option.none) :
    ∃ e, ParseInt lit.toList 64 = .error e := by
  have hP := ParseInt_toOption lit.toList 64 (Or.inr rfl)
  rw [h] at hP
  cases hres : ParseInt lit.toList 64 with
  | error e => exact ⟨e, rfl⟩
  | ok n => rw [hres] at hP; simp [Except.toOption] at hP

/-- An error that was saved stays saved when a further member is decoded. -/
theorem decodeValue_keeps_saved (pt : String → Except String Time) (st st1 : DecodeState)
    (f : Field) (v : JSON) (h : decodeValue pt st f v = .ok st1)
    (hs : st.saved ≠ Option.none) : st1.saved ≠ Option.none := by
  cases f <;> cases v <;> simp only [decodeValue, saveError_of_saved _ _ hs] at h
  all_goals first
    | (cases h; exact hs)
    | (split at h <;> first | (cases h; exact hs) | cases h)
    | cases h

/-- Decoding a value that is not of the kind of its field ends the decode or saves an
error. -/
theorem decodeValue_illTyped (pt : String → Except String Time) (st st1 : DecodeState)
    (f : Field) (v : JSON) (hw : wellTyped pt f v = false)
    (h : decodeValue pt st f v = .ok st1) : st1.saved ≠ Option.none := by
  cases f <;> cases v <;> simp only [decodeValue] at h
  all_goals first
    | (cases h; exact saveError_saved _ _)
    | (simp [wellTyped] at hw; done)
    | cases h
    | (obtain ⟨e, he⟩ := ParseInt64_error_of_none _ (by simpa [wellTyped] using hw)
       rw [he] at h
       cases h
       exact saveError_saved _ _)
    | (split at h
       · rename_i tm htm
         simp [wellTyped, htm, Except.toOption] at hw
       · cases h)

theorem decodeObject_keeps_saved (pt : String → Except String Time)
    (kvs : List (String × JSON)) (st st1 : DecodeState)
    (h : decodeObject pt kvs st = .ok st1) (hs : st.saved ≠ Option.none) :
    st1.saved ≠ Option.none := by
  induction kvs generalizing st with
  | nil =>
    simp only [decodeObject] at h
    cases h
    exact hs
  | cons kv rest ih =>
    obtain ⟨k, v⟩ := kv
    simp only [decodeObject] at h
    cases hk : findField k with
    | none =>
      simp only [hk] at h
      exact ih st h hs
    | some f =>
      simp only [hk] at h
      cases hv : decodeValue pt st f v with
      | error e => simp only [hv] at h; cases h
      | ok st0 =>
        simp only [hv] at h
        exact ih st0 h (decodeValue_keeps_saved pt st st0 f v hv hs)

/-- A payload with a member that stands for a field and is not of its kind does not
decode without a saved error. -/
theorem decodeObject_illTyped (pt : String → Except String Time)
    (kvs : List (String × JSON)) (st st1 : DecodeState)
    (hbad : ∃ kv ∈ kvs, ∃ f, fieldOfKey kv.1 = some f ∧ wellTyped pt f kv.2 = false)
    (h : decodeObject pt kvs st = .ok st1) : st1.saved ≠ Option.none := by
  induction kvs generalizing st with
  | nil =>
    obtain ⟨kv, hmem, _⟩ := hbad
    simp at hmem
  | cons kv rest ih =>
    obtain ⟨k, v⟩ := kv
    simp only [decodeObject, findField_eq_fieldOfKey] at h
    obtain ⟨kv0, hmem, f0, hf0, hw0⟩ := hbad
    cases hk : fieldOfKey k with
    | none =>
      simp only [hk] at h
      rcases List.mem_cons.mp hmem with e | hin
      · subst e
        rw [hk] at hf0
        cases hf0
      · exact ih st ⟨kv0, hin, f0, hf0, hw0⟩ h
    | some f =>
      simp only [hk] at h
      cases hv : decodeValue pt st f v with
      | error e => simp only [hv] at h; cases h
      | ok st0 =>
        simp only [hv] at h
        rcases List.mem_cons.mp hmem with e | hin
        · subst e
          rw [hk] at hf0
          cases hf0
          exact decodeObject_keeps_saved pt rest st0 st1 h
            (decodeValue_illTyped pt st st0 _ v hw0 hv)
        · exact ih st0 ⟨kv0, hin, f0, hf0, hw0⟩ h

theorem decodeTask_illTyped (pt : String → Except String Time) (kvs : List (String × JSON))
    (hbad : ∃ kv ∈ kvs, ∃ f, fieldOfKey kv.1 = some f ∧ wellTyped pt f kv.2 = false) :
    ∃ e, decodeTask pt (.ok (.obj kvs)) = .error e := by
  simp only [decodeTask]
  cases hdec : decodeObject pt kvs ⟨Task.zero, Option.none⟩ with
  | error e => exact ⟨e, rfl⟩
  | ok st1 =>
    have hs := decodeObject_illTyped pt kvs _ st1 hbad hdec
    cases hsv : st1.saved with
    | none => exact absurd hsv hs
    | some e =>
      refine ⟨e, ?_⟩
      simp only [hsv]

/-! ### Valid payloads -/

/-- What `CreateTask` does with a valid payload when the location loads and storage
reports no failure: the insert is sent with the title and description of the payload. -/
theorem CreateTask_validPayload (pt : String → Except String Time) (env : Env) (f : Faults)
    (db : DB) (kvs : List (String × JSON)) (t d : String) (jst : Location)
    (hvalid : validPayload pt kvs t d = true)
    (hloc : env.LoadLocation "Asia/Tokyo" = some jst)
    (hprep : f.prepare = Option.none) (hexec : f.exec = Option.none) :
    CreateTask pt env f db (.ok (.obj kvs)) =
      match db.insert t d (env.Now 0 jst) (env.Now 0 jst) with
      | (db1, some e) =>
        ⟨some (httpErrorOf (.storage e) StatusInternalServerError), db1,
          [.prepareInsert, .execInsert t d (env.Now 0 jst) (env.Now 0 jst)]⟩
      | (db1, Option.none) =>
        ⟨some ⟨StatusCreated, Option.none, .empty⟩, db1,
          [.prepareInsert, .execInsert t d (env.Now 0 jst) (env.Now 0 jst)]⟩ := by
  obtain ⟨task, hdec, ht, hd⟩ := decodeTask_validPayload pt kvs t d hvalid
  rw [CreateTask_of_decoded pt env f db _ task hdec, ht, hd]
  simp only [hloc, hprep, hexec]

theorem DB.insert_accepted (db : DB) (t d : String) (c u : Time)
    (h : (db.insert t d c u).2 = Option.none) :
    (∀ r ∈ db.rows, r.id ≠ db.nextId) ∧
    db.insert t d c u = (⟨db.rows ++ [⟨db.nextId, t, d, c, u⟩], db.nextId + 1⟩, Option.none) := by
  unfold DB.insert at h ⊢
  by_cases hdup : db.rows.any (fun r => r.id = db.nextId) = true
  · rw [if_pos hdup] at h
    simp at h
  · rw [if_neg hdup]
    refine ⟨?_, rfl⟩
    intro r hr e
    apply hdup
    rw [List.any_eq_true]
    exact ⟨r, hr, by simpa using e⟩

/-- C4: for every valid create payload, a JSON object with a string title and a string
description, its members in any order and with any further members that fit, and every
storage state that accepts the insert, when the location loads and storage reports no
failure, `CreateTask` answers 201 and a `GetAllTasks` after it lists a task with the
title and description of the payload whose id is the id of no row that was there
before. -/
theorem CreateTask_then_GetAllTasks (pt : String → Except String Time) (env : Env)
    (f g : Faults) (db : DB) (kvs : List (String × JSON)) (t d : String) (jst : Location)
    (hvalid : validPayload pt kvs t d = true)
    (hloc : env.LoadLocation "Asia/Tokyo" = some jst)
    (hprep : f.prepare = Option.none) (hexec : f.exec = Option.none)
    (hins : (db.insert t d (env.Now 0 jst) (env.Now 0 jst)).2 = Option.none)
    (hq : g.query = Option.none) (hn : g.next = Option.none)
    (hs : ∀ i, g.scan i = Option.none) :
    (CreateTask pt env f db (.ok (.obj kvs))).resp = some ⟨201, Option.none, .empty⟩ ∧
    ∃ (id : Int) (items : List JSON),
      (∀ r ∈ db.rows, r.id ≠ id) ∧
      (GetAllTasks g (CreateTask pt env f db (.ok (.obj kvs))).db).resp =
          some ⟨200, some "application/json", .json (.arr items)⟩ ∧
      JSON.obj [("id", .num (toString id)), ("title", .str t), ("description", .str d),
        ("created_at", .str "0001-01-01T00:00:00Z"),
        ("updated_at", .str "0001-01-01T00:00:00Z")] ∈ items := by
  obtain ⟨hfresh, hdb⟩ := DB.insert_accepted db t d _ _ hins
  have hres := CreateTask_validPayload pt env f db kvs t d jst hvalid hloc hprep hexec
  rw [hdb] at hres
  simp only at hres
  refine ⟨by rw [hres]; rfl, db.nextId,
    (db.rows ++ [(⟨db.nextId, t, d, env.Now 0 jst, env.Now 0 jst⟩ : Row)]).map rowJSON,
    hfresh, ?_, ?_⟩
  · rw [hres, GetAllTasks_no_fault g hq hn hs]
  · simp [rowJSON]

theorem CreateTask_then_GetAllTasks_witness :
    (CreateTask sampleParseTime sampleEnv Faults.none ⟨[⟨1, "x", "y", Time.zero, Time.zero⟩], 2⟩
      (.ok (.obj [("note", .arr [.bool true]), ("Description", .str "b"), ("id", .num "9"),
        ("TITLE", .str "a")]))).resp = some ⟨201, Option.none, .empty⟩ ∧
    ∃ (id : Int) (items : List JSON),
      (∀ r ∈ ([⟨1, "x", "y", Time.zero, Time.zero⟩] : List Row), r.id ≠ id) ∧
      (GetAllTasks Faults.none (CreateTask sampleParseTime sampleEnv Faults.none
        ⟨[⟨1, "x", "y", Time.zero, Time.zero⟩], 2⟩
        (.ok (.obj [("note", .arr [.bool true]), ("Description", .str "b"), ("id", .num "9"),
          ("TITLE", .str "a")]))).db).resp =
          some ⟨200, some "application/json", .json (.arr items)⟩ ∧
      JSON.obj [("id", .num (toString id)), ("title", .str "a"), ("description", .str "b"),
        ("created_at", .str "0001-01-01T00:00:00Z"),
        ("updated_at", .str "0001-01-01T00:00:00Z")] ∈ items :=
  CreateTask_then_GetAllTasks sampleParseTime sampleEnv Faults.none Faults.none
    ⟨[⟨1, "x", "y", Time.zero, Time.zero⟩], 2⟩
    [("note", .arr [.bool true]), ("Description", .str "b"), ("id", .num "9"),
      ("TITLE", .str "a")] "a" "b" ⟨"Asia/Tokyo", 32400⟩
    (by decide) (by decide) rfl rfl (by decide) rfl rfl (fun _ => rfl)

/-- C6, as amended: `CreateTask` ignores the members of the payload that stand for `id`,
`created_at` and `updated_at` when each is `null` or of the kind of its field, and the
members that stand for no field, wherever they are among the members: for every valid
payload `kvs` with title `t` and description `d` the outcome, the response and the
inserted row included, is the one for the payload with the title and description only.
A payload `bad` with a member that stands for a field and is of another kind is answered
400, with no statement sent to storage and the table unchanged. -/
theorem CreateTask_ignores_extra_fields (pt : String → Except String Time) (env : Env)
    (f : Faults) (db : DB) (kvs bad : List (String × JSON)) (t d : String)
    (hvalid : validPayload pt kvs t d = true)
    (hbad : ∃ kv ∈ bad, ∃ fld, fieldOfKey kv.1 = some fld ∧ wellTyped pt fld kv.2 = false) :
    CreateTask pt env f db (.ok (.obj kvs)) =
      CreateTask pt env f db (.ok (.obj [("title", .str t), ("description", .str d)])) ∧
    (CreateTask pt env f db (.ok (.obj bad))).resp.map (fun r => r.status) = some 400 ∧
    (CreateTask pt env f db (.ok (.obj bad))).db = db ∧
    (CreateTask pt env f db (.ok (.obj bad))).trace = [] := by
  obtain ⟨task, hdec, ht, hd⟩ := decodeTask_validPayload pt kvs t d hvalid
  obtain ⟨e, he⟩ := decodeTask_illTyped pt bad hbad
  refine ⟨?_, ?_, ?_, ?_⟩
  · rw [CreateTask_of_decoded pt env f db _ task hdec,
      CreateTask_of_decoded pt env f db _ _ (decodeTask_title_description pt t d), ht, hd]
  · simp only [CreateTask, he]
    rfl
  · simp only [CreateTask, he]
  · simp only [CreateTask, he]

theorem CreateTask_ignores_extra_fields_witness :
    CreateTask sampleParseTime sampleEnv Faults.none ⟨[], 1⟩
        (.ok (.obj [("updated_at", .null), ("ID", .num "42"), ("extra", .obj []),
          ("description", .str "b"), ("created_at", .str "2006-01-02T15:04:05Z"),
          ("title", .str "a")])) =
      CreateTask sampleParseTime sampleEnv Faults.none ⟨[], 1⟩
        (.ok (.obj [("title", .str "a"), ("description", .str "b")])) ∧
    (CreateTask sampleParseTime sampleEnv Faults.none ⟨[], 1⟩
        (.ok (.obj [("title", .str "a"), ("created_at", .num "5"),
          ("description", .str "b")]))).resp.map (fun r => r.status) = some 400 ∧
    (CreateTask sampleParseTime sampleEnv Faults.none ⟨[], 1⟩
        (.ok (.obj [("title", .str "a"), ("created_at", .num "5"),
          ("description", .str "b")]))).db = ⟨[], 1⟩ ∧
    (CreateTask sampleParseTime sampleEnv Faults.none ⟨[], 1⟩
        (.ok (.obj [("title", .str "a"), ("created_at", .num "5"),
          ("description", .str "b")]))).trace = [] :=
  CreateTask_ignores_extra_fields sampleParseTime sampleEnv Faults.none ⟨[], 1⟩
    [("updated_at", .null), ("ID", .num "42"), ("extra", .obj []), ("description", .str "b"),
      ("created_at", .str "2006-01-02T15:04:05Z"), ("title", .str "a")]
    [("title", .str "a"), ("created_at", .num "5"), ("description", .str "b")] "a" "b"
    (by decide)
    ⟨("created_at", .num "5"), by simp, .created_at, by decide, by decide⟩

/-- C10, as stated, fails: the query succeeds and no scan fails, but the iteration fails
before the first of two rows is yielded, and `GetAllTasks` answers 200 with an empty
array instead of one task per row. -/
theorem GetAllTasks_lists_rows_counterexample :
    (⟨Option.none, some 0, fun _ => Option.none, Option.none, Option.none, Option.none⟩ :
      Faults).query = Option.none ∧
    (∀ i, (⟨Option.none, some 0, fun _ => Option.none, Option.none, Option.none, Option.none⟩ :
      Faults).scan i = Option.none) ∧
    (⟨[⟨7, "x", "y", Time.zero, Time.zero⟩, ⟨8, "z", "w", Time.zero, Time.zero⟩], 9⟩ :
      DB).rows.length = 2 ∧
    GetAllTasks ⟨Option.none, some 0, fun _ => Option.none, Option.none, Option.none, Option.none⟩
        ⟨[⟨7, "x", "y", Time.zero, Time.zero⟩, ⟨8, "z", "w", Time.zero, Time.zero⟩], 9⟩ =
      ⟨some ⟨200, some "application/json", .json (.arr [])⟩,
        ⟨[⟨7, "x", "y", Time.zero, Time.zero⟩, ⟨8, "z", "w", Time.zero, Time.zero⟩], 9⟩,
        [.select]⟩ :=
  ⟨rfl, fun _ => rfl, rfl, rfl⟩

end TaskService
